import Mathlib

/-!
Verification of the Trajectories therapist-dashboard repository.

Shallow embedding of the ingestion / coercion / load / query path:

* `pull_build.py` — field coercers `parse_percentage`, `safe_int`, `safe_float`,
  `safe_str`, `parse_timestamp`, and the SQLite variant of
  `populate_database_with_sheets`.
* `db_build.py` — the MySQL variant of `populate_database_with_sheets`
  (the one used by the Streamlit app via `full_data_refresh`).
* `app.py` — `get_tool_data` (per-client session ranks via
  `ROW_NUMBER() OVER (PARTITION BY client_code ORDER BY timestamp)`),
  `get_therapist_comprehensive_counts`, `get_therapist_clients_for_tool`.

Modelling conventions:

* A spreadsheet cell value is `Option String`: `none` models a missing value
  (`pd.notna(value)` is false, i.e. `None`/`NaN`), `some s` models a value
  whose Python `str(value)` is `s`.  gspread's `get_all_records` yields
  strings and numbers; numbers enter the coercers through `str(value)`, so
  their decimal text is what matters.
* Python exceptions are explicit: functions that can raise return
  `Except PyErr _`; a `try/except` is a `match` on that result that turns the
  caught error classes into the handler's value and re-raises the rest.
* Python floats are modelled exactly: a parsed decimal literal is kept as a
  rational (binary64 rounding is not modelled; it does not affect any claim
  here: `None`-ness, raising, and truncation at the claims' inputs depend only
  on the literal grammar and on the infinity/NaN cases).  Decimal values with
  magnitude at least 2^1024 overflow to infinity exactly as `float()` does
  (the half-ulp rounding band just below 2^1024 is conflated with the finite
  side; no claim touches it).
-/

set_option maxRecDepth 8192

/-- Python exception classes that the coercers can raise or catch. -/
inductive PyErr where
  | valueError
  | typeError
  | overflowError
deriving DecidableEq, Repr

/-- A Python `float` value: finite (exact rational), signed infinity, or NaN. -/
inductive PyFloat where
  | finite (q : Rat)
  | inf (neg : Bool)
  | nan
deriving DecidableEq, Repr

/-- Whitespace as recognized by Python's `str.strip()` (ASCII subset;
the exotic unicode whitespace code points never appear in the claims). -/
def pyIsWs (c : Char) : Bool :=
  c = ' ' || c = '\t' || c = '\n' || c = '\r' || c = '\x0b' || c = '\x0c'

/-- `str.strip()` on a character list: drop whitespace from both ends. -/
def stripChars (l : List Char) : List Char :=
  ((l.dropWhile pyIsWs).reverse.dropWhile pyIsWs).reverse

/-- Python `str.strip()`. -/
def pyStrip (s : String) : String :=
  ⟨stripChars s.data⟩

/-- ASCII lower-casing, as used by `float()` to recognize `inf`/`nan`
case-insensitively. -/
def lowerAscii (c : Char) : Char :=
  if 'A' ≤ c && c ≤ 'Z' then Char.ofNat (c.toNat + 32) else c

/-- Digit value of an ASCII digit character. -/
def digVal (c : Char) : Nat := c.toNat - 48

/-- Read a run of decimal digits allowing single underscores between digits
(Python 3 numeric literal syntax accepted by `float()`).  Returns
`some (value, digitCount, rest)`; returns `none` when an underscore is not
surrounded by digits, which makes the whole `float()` call fail. -/
def goDigits : Bool → Nat → Nat → List Char → Option (Nat × Nat × List Char)
  -- the flag records that the previous char was an underscore (a digit must follow)
  | afterU, acc, n, [] => if afterU then none else some (acc, n, [])
  | afterU, acc, n, c :: rest =>
    if c.isDigit then goDigits false (acc * 10 + digVal c) (n + 1) rest
    else if afterU then none
    else if c = '_' ∧ n ≠ 0 then goDigits true acc n rest
    else some (acc, n, c :: rest)

/-- Entry point: read digits, no pending underscore. -/
def readDigitsU (acc n : Nat) (cs : List Char) : Option (Nat × Nat × List Char) :=
  goDigits false acc n cs

/-- Mantissa and exponent of a decimal literal:
`digits [. digits] [e|E [sign] digits]` with at least one mantissa digit,
as accepted by Python's `float()` after sign removal.  Returns
`(mantissa, fracLen, exponent)` so that the value is
`mantissa * 10 ^ (exponent - fracLen)`. -/
def readNumeric (cs : List Char) : Option (Nat × Nat × Int) := do
  let (ival, ni, r1) ← readDigitsU 0 0 cs
  let (m, nf, r2) ←
    match r1 with
    | '.' :: r => do
      let (fval, k, r') ← readDigitsU 0 0 r
      pure (ival * 10 ^ k + fval, k, r')
    | _ => pure (ival, 0, r1)
  if ni + nf = 0 then none
  else
    match r2 with
    | [] => pure (m, nf, (0 : Int))
    | e :: r3 =>
      if e = 'e' ∨ e = 'E' then
        let (eneg, r4) :=
          match r3 with
          | '+' :: r => (false, r)
          | '-' :: r => (true, r)
          | _ => (false, r3)
        match readDigitsU 0 0 r4 with
        | some (ev, ne, []) =>
          if ne = 0 then none
          else pure (m, nf, if eneg then -(ev : Int) else (ev : Int))
        | _ => none
      else none

/-- The largest finite binary64 magnitude boundary: decimal values with
magnitude at least `2 ^ 1024` overflow to infinity in `float()`. -/
def floatOverflowBound : Nat := 2 ^ 1024

/-- Python `float(s)` on a string: strip whitespace, optional sign, then
either `inf`/`infinity`/`nan` (case-insensitive) or a decimal literal.
`none` models a raised `ValueError`. -/
def pyParseFloat (s : String) : Option PyFloat :=
  let cs := stripChars s.data
  let (neg, cs1) :=
    match cs with
    | '+' :: r => (false, r)
    | '-' :: r => (true, r)
    | _ => (false, cs)
  let low := cs1.map lowerAscii
  if low = ['i', 'n', 'f'] ∨ low = ['i', 'n', 'f', 'i', 'n', 'i', 't', 'y'] then
    some (.inf neg)
  else if low = ['n', 'a', 'n'] then
    some .nan
  else
    match readNumeric cs1 with
    | none => none
    | some (m, nf, ex) =>
      let net : Int := ex - (nf : Int)
      -- value is m * 10 ^ net; check overflow, else build the exact rational
      if net ≥ 0 then
        let v : Nat := m * 10 ^ net.toNat
        if v ≥ floatOverflowBound then some (.inf neg)
        else some (.finite (mkRat (if neg then -(v : Int) else (v : Int)) 1))
      else
        let d : Nat := 10 ^ (-net).toNat
        if m ≥ floatOverflowBound * d then some (.inf neg)
        else some (.finite (mkRat (if neg then -(m : Int) else (m : Int)) d))

/-- Python `float(s)` as an expression that can raise: a failed parse is a
`ValueError`. -/
def pyFloatOfStr (s : String) : Except PyErr PyFloat :=
  match pyParseFloat s with
  | some f => .ok f
  | none => .error .valueError

/-- Python `int(f)` on a float: truncation toward zero for finite values;
`OverflowError` on infinities, `ValueError` on NaN. -/
def pyIntOfFloat : PyFloat → Except PyErr Int
  | .finite q => .ok (Int.tdiv q.num (q.den : Int))
  | .inf _ => .error .overflowError
  | .nan => .error .valueError

/-- `pd.notna(value)` on a cell value. -/
def notna (v : Option String) : Bool := v.isSome

/-- `str(value)` on a non-missing cell value (identity in this model). -/
def pyStr (s : String) : String := s

/-- `pull_build.safe_str`: trimmed string of the value, `""` when missing. -/
def safe_str (v : Option String) : String :=
  match v with
  | some s => pyStrip (pyStr s)
  | none => ""

/-- `pull_build.safe_int`: `int(float(str(value).strip()))` guarded by
`pd.notna(value) and str(value).strip() != ""`, with a
`try/except (ValueError, TypeError)` returning `None`.  `OverflowError`
(from `int()` applied to an infinite float) is NOT caught and propagates. -/
def safe_int (v : Option String) : Except PyErr (Option Int) :=
  match v with
  | none => .ok none
  | some s =>
    if pyStrip (pyStr s) = "" then .ok none
    else
      match pyFloatOfStr (pyStrip (pyStr s)) with
      | .error .valueError => .ok none
      | .error .typeError => .ok none
      | .error e => .error e
      | .ok f =>
        match pyIntOfFloat f with
        | .ok n => .ok (some n)
        | .error .valueError => .ok none
        | .error .typeError => .ok none
        | .error e => .error e

/-- `pull_build.safe_float`: `float(str(value).strip())` guarded by
`pd.notna(value) and str(value).strip() != ""`, with a
`try/except (ValueError, TypeError)` returning `None`. -/
def safe_float (v : Option String) : Except PyErr (Option PyFloat) :=
  match v with
  | none => .ok none
  | some s =>
    if pyStrip (pyStr s) = "" then .ok none
    else
      match pyFloatOfStr (pyStrip (pyStr s)) with
      | .error .valueError => .ok none
      | .error .typeError => .ok none
      | .error e => .error e
      | .ok f => .ok (some f)

/-- `pull_build.parse_percentage`: on a non-missing value, strip; if it ends
with `'%'`, parse the prefix as a float, else parse the whole string; a
`ValueError` from `float()` is caught and yields `None`. -/
def parse_percentage (v : Option String) : Except PyErr (Option PyFloat) :=
  match v with
  | none => .ok none
  | some s =>
    let value_str := pyStrip (pyStr s)
    if value_str.data.getLast? = some '%' then
      match pyFloatOfStr ⟨value_str.data.dropLast⟩ with
      | .error .valueError => .ok none
      | .error e => .error e
      | .ok f => .ok (some f)
    else
      match pyFloatOfStr value_str with
      | .error .valueError => .ok none
      | .error e => .error e
      | .ok f => .ok (some f)

instance {ε α : Type} [DecidableEq ε] [DecidableEq α] : DecidableEq (Except ε α) :=
  fun a b =>
    match a, b with
    | .ok x, .ok y => if h : x = y then .isTrue (by rw [h]) else .isFalse (by simp [h])
    | .error x, .error y => if h : x = y then .isTrue (by rw [h]) else .isFalse (by simp [h])
    | .ok _, .error _ => .isFalse (by simp)
    | .error _, .ok _ => .isFalse (by simp)

/-- Helper: the empty string does not parse as a float. -/
theorem pyParseFloat_empty : pyParseFloat "" = none := by decide

/-- C7: `parse_percentage` strips one trailing `%` before parsing and returns
absent on failure: `"67%"` and `"67"` both yield `67.0`, `"abc"` yields
`None`, `"67%%"` (two signs: only one stripped) yields `None`, and the
function never raises: every input produces a normal return value. -/
theorem parse_percentage_correct :
    parse_percentage (some "67%") = .ok (some (.finite (mkRat 67 1))) ∧
    parse_percentage (some "67") = .ok (some (.finite (mkRat 67 1))) ∧
    parse_percentage (some "abc") = .ok none ∧
    parse_percentage (some "67%%") = .ok none ∧
    ∀ v, ∃ r, parse_percentage v = .ok r := by
  refine ⟨by decide, by decide, by decide, by decide, ?_⟩
  intro v
  cases v with
  | none => exact ⟨none, rfl⟩
  | some s =>
    by_cases hp : (pyStrip (pyStr s)).data.getLast? = some '%'
    · cases hf : pyParseFloat ⟨(pyStrip (pyStr s)).data.dropLast⟩ with
      | none => exact ⟨none, by simp [parse_percentage, hp, pyFloatOfStr, hf]⟩
      | some f => exact ⟨some f, by simp [parse_percentage, hp, pyFloatOfStr, hf]⟩
    · cases hf : pyParseFloat (pyStrip (pyStr s)) with
      | none => exact ⟨none, by simp [parse_percentage, hp, pyFloatOfStr, hf]⟩
      | some f => exact ⟨some f, by simp [parse_percentage, hp, pyFloatOfStr, hf]⟩

/-- C3 counterexample: the claim "safe_int and safe_float never raise" is
false: on the input `"inf"` (which Python's `float()` parses to infinity),
`int(float("inf"))` raises `OverflowError`, which is not in the
`except (ValueError, TypeError)` clause of `safe_int` and so propagates. -/
theorem safe_int_raises_on_infinity :
    safe_int (some "inf") = .error .overflowError := by decide

/-- C3 (amended): `safe_float` never raises and returns `None` exactly on
missing, blank, or unparseable input; `safe_int` raises (an uncaught
`OverflowError`) exactly on values parsing to an infinite float, and
returns `None` exactly on missing, blank, or unparseable input or when the
value parses to NaN (where `int()` raises a caught `ValueError`). -/
theorem coercers_raise_and_none_amended :
    (∀ v, ∃ r, safe_float v = .ok r) ∧
    (∀ v, safe_float v = .ok none ↔
      (v = none ∨ ∃ s, v = some s ∧
        (pyStrip s = "" ∨ pyParseFloat (pyStrip s) = none))) ∧
    (∀ v e, safe_int v = .error e ↔
      (e = .overflowError ∧ ∃ s b, v = some s ∧ pyStrip s ≠ "" ∧
        pyParseFloat (pyStrip s) = some (.inf b))) ∧
    (∀ v, safe_int v = .ok none ↔
      (v = none ∨ ∃ s, v = some s ∧
        (pyStrip s = "" ∨ pyParseFloat (pyStrip s) = none ∨
          pyParseFloat (pyStrip s) = some .nan))) := by
  refine ⟨?_, ?_, ?_, ?_⟩
  · intro v
    cases v with
    | none => exact ⟨none, rfl⟩
    | some s =>
      by_cases h : pyStrip (pyStr s) = ""
      · exact ⟨none, by simp [safe_float, h]⟩
      · cases hp : pyParseFloat (pyStrip (pyStr s)) with
        | none => exact ⟨none, by simp [safe_float, h, pyFloatOfStr, hp]⟩
        | some f => exact ⟨some f, by simp [safe_float, h, pyFloatOfStr, hp]⟩
  · intro v
    cases v with
    | none => simp [safe_float]
    | some s =>
      simp only [pyStr, Option.some.injEq, reduceCtorEq, false_or,
        exists_eq_left']
      by_cases h : pyStrip s = ""
      · simp [safe_float, pyStr, h]
      · cases hp : pyParseFloat (pyStrip s) with
        | none => simp [safe_float, pyStr, h, pyFloatOfStr, hp]
        | some f => simp [safe_float, pyStr, h, pyFloatOfStr, hp]
  · intro v e
    cases v with
    | none => simp [safe_int]
    | some s =>
      by_cases h : pyStrip s = ""
      · simp [safe_int, pyStr, h]
      · cases hp : pyParseFloat (pyStrip s) with
        | none => simp [safe_int, pyStr, h, pyFloatOfStr, hp]
        | some f =>
          cases f with
          | finite q => simp [safe_int, pyStr, h, pyFloatOfStr, hp, pyIntOfFloat]
          | inf b =>
            simp [safe_int, pyStr, h, pyFloatOfStr, hp, pyIntOfFloat]
            exact eq_comm
          | nan => simp [safe_int, pyStr, h, pyFloatOfStr, hp, pyIntOfFloat]
  · intro v
    cases v with
    | none => simp [safe_int]
    | some s =>
      simp only [pyStr, Option.some.injEq, reduceCtorEq, false_or,
        exists_eq_left']
      by_cases h : pyStrip s = ""
      · simp [safe_int, pyStr, h]
      · cases hp : pyParseFloat (pyStrip s) with
        | none => simp [safe_int, pyStr, h, pyFloatOfStr, hp]
        | some f =>
          cases f with
          | finite q => simp [safe_int, pyStr, h, pyFloatOfStr, hp, pyIntOfFloat]
          | inf b => simp [safe_int, pyStr, h, pyFloatOfStr, hp, pyIntOfFloat]
          | nan => simp [safe_int, pyStr, h, pyFloatOfStr, hp, pyIntOfFloat]

/-- C4 counterexample: `safe_int` does not take the floor of the parsed
float; Python's `int()` truncates toward zero, so `"-2.5"` yields `-2`,
not the floor `-3` the claim states. -/
theorem safe_int_negative_not_floor :
    safe_int (some "-2.5") = .ok (some (-2)) ∧
    safe_int (some "-2.5") ≠ .ok (some (-3)) := by
  exact ⟨by decide, by decide⟩

/-- C4 (amended): for every input parsing to a finite float `q`, `safe_int`
returns the truncation of `q` toward zero (`Int.tdiv` of numerator by
denominator); it returns `None` on blank or unparseable input and on a
missing value. -/
theorem safe_int_truncates_amended :
    (∀ s q, pyParseFloat (pyStrip s) = some (.finite q) →
      safe_int (some s) = .ok (some (Int.tdiv q.num (q.den : Int)))) ∧
    (∀ s, pyStrip s = "" → safe_int (some s) = .ok none) ∧
    (∀ s, pyParseFloat (pyStrip s) = none → safe_int (some s) = .ok none) ∧
    safe_int none = .ok none := by
  refine ⟨?_, ?_, ?_, rfl⟩
  · intro s q hq
    by_cases h : pyStrip s = ""
    · rw [h] at hq
      simp [pyParseFloat_empty] at hq
    · simp [safe_int, pyStr, h, pyFloatOfStr, hq, pyIntOfFloat]
  · intro s h
    simp [safe_int, pyStr, h]
  · intro s h
    by_cases hb : pyStrip s = ""
    · simp [safe_int, pyStr, hb]
    · simp [safe_int, pyStr, hb, pyFloatOfStr, h]

/-- Witness for C4's amended theorem at the concrete input `"-2.5"`
(parsed value `-5/2`, truncation `-2`). -/
theorem safe_int_truncates_amended_witness :
    pyParseFloat (pyStrip "-2.5") = some (.finite (mkRat (-5) 2)) ∧
    safe_int (some "-2.5") = .ok (some (Int.tdiv (mkRat (-5) 2).num ((mkRat (-5) 2).den : Int))) :=
  ⟨by decide, safe_int_truncates_amended.1 "-2.5" (mkRat (-5) 2) (by decide)⟩

/-- Calendar datetime, the result of a successful `pd.to_datetime` parse. -/
structure DateTime where
  year : Nat
  month : Nat
  day : Nat
  hour : Nat
  minute : Nat
  second : Nat
deriving DecidableEq, Repr

/-- Gregorian leap year. -/
def isLeapYear (y : Nat) : Bool :=
  y % 4 = 0 && (y % 100 ≠ 0 || y % 400 = 0)

/-- Days in a month of a given year. -/
def daysInMonth (y m : Nat) : Nat :=
  if m = 2 then (if isLeapYear y then 29 else 28)
  else if m = 4 ∨ m = 6 ∨ m = 9 ∨ m = 11 then 30
  else 31

/-- Field validity enforced by `pd.to_datetime` (year range kept strictly
inside the `pandas.Timestamp` bounds 1677-09-21 .. 2262-04-11; boundary
years are treated as unparseable, which like the real out-of-bounds error
lands in the fail branch of `parse_timestamp`). -/
def validDT (y mo d h mi se : Nat) : Bool :=
  1678 ≤ y && y ≤ 2261 && 1 ≤ mo && mo ≤ 12 && 1 ≤ d &&
    d ≤ daysInMonth y mo && h ≤ 23 && mi ≤ 59 && se ≤ 59

/-- The ten decimal digit characters. -/
def digitChars : List Char := ['0', '1', '2', '3', '4', '5', '6', '7', '8', '9']

/-- Digit character of `k % 10`. -/
def digitChar (k : Nat) : Char := digitChars.getD (k % 10) '0'

/-- Two-digit zero-padded rendering (`%m`, `%d`, `%H`, `%M`, `%S`). -/
def pad2 (n : Nat) : List Char := [digitChar (n / 10), digitChar n]

/-- Four-digit zero-padded rendering (`%Y`). -/
def pad4 (n : Nat) : List Char :=
  [digitChar (n / 1000), digitChar (n / 100), digitChar (n / 10), digitChar n]

/-- `strftime('%Y-%m-%d %H:%M:%S')` as a character list. -/
def fmtChars (d : DateTime) : List Char :=
  pad4 d.year ++ '-' :: (pad2 d.month ++ '-' :: (pad2 d.day ++
    ' ' :: (pad2 d.hour ++ ':' :: (pad2 d.minute ++ ':' :: pad2 d.second))))

/-- `strftime('%Y-%m-%d %H:%M:%S')`. -/
def fmtTimestamp (d : DateTime) : String := ⟨fmtChars d⟩

/-- Read a run of decimal digits: `(value, digitCount, rest)`. -/
def readNat : Nat → Nat → List Char → (Nat × Nat × List Char)
  | acc, n, [] => (acc, n, [])
  | acc, n, c :: rest =>
    if c.isDigit then readNat (acc * 10 + digVal c) (n + 1) rest
    else (acc, n, c :: rest)

/-- The `pandas.to_datetime` parser, modelled on the ISO forms this data
uses: `YYYY-MM-DD`, optionally followed by `' '` or `'T'` and `HH:MM` or
`HH:MM:SS` (month, day, hour, minute, second each 1 or 2 digits), with
field validation.  Other input shapes are treated as unparseable; for this
repository's claims only the behavior on canonical strings and the
success/failure split matter. -/
def pd_to_datetime (s : String) : Option DateTime :=
  let (y, ny, r1) := readNat 0 0 s.data
  if ny ≠ 4 then none else
  match r1 with
  | '-' :: r2 =>
    let (mo, nmo, r3) := readNat 0 0 r2
    if nmo = 0 ∨ nmo > 2 then none else
    match r3 with
    | '-' :: r4 =>
      let (d, nd, r5) := readNat 0 0 r4
      if nd = 0 ∨ nd > 2 then none else
      let time? : Option (Nat × Nat × Nat) :=
        match r5 with
        | [] => some (0, 0, 0)
        | sep :: r6 =>
          if sep = ' ' ∨ sep = 'T' then
            let (h, nh, r7) := readNat 0 0 r6
            if nh = 0 ∨ nh > 2 then none else
            match r7 with
            | ':' :: r8 =>
              let (mi, nmi, r9) := readNat 0 0 r8
              if nmi = 0 ∨ nmi > 2 then none else
              match r9 with
              | [] => some (h, mi, 0)
              | ':' :: r10 =>
                let (se, nse, r11) := readNat 0 0 r10
                if nse = 0 ∨ nse > 2 then none else
                match r11 with
                | [] => some (h, mi, se)
                | _ => none
              | _ => none
            | _ => none
          else none
      match time? with
      | none => none
      | some (h, mi, se) =>
        if validDT y mo d h mi se then some ⟨y, mo, d, h, mi, se⟩ else none
    | _ => none
  | _ => none

/-- `pull_build.parse_timestamp`: on a non-missing, non-blank value, try
`pd.to_datetime(str(value).strip())` and return
`dt.strftime('%Y-%m-%d %H:%M:%S')`; the bare `except:` catches every
parse error and returns `str(value).strip()`. -/
def parse_timestamp (v : Option String) : Option String :=
  match v with
  | none => none
  | some s =>
    if pyStrip (pyStr s) = "" then none
    else
      match pd_to_datetime (pyStrip (pyStr s)) with
      | some dt => some (fmtTimestamp dt)
      | none => some (pyStrip (pyStr s))



theorem dropWhile_head_false {p : Char → Bool} {l : List Char} {c : Char} {r : List Char}
    (h : l.dropWhile p = c :: r) : p c = false := by
  induction l with
  | nil => simp [List.dropWhile] at h
  | cons a t ih =>
    rw [List.dropWhile_cons] at h
    by_cases ha : p a
    · simp [ha] at h
      exact ih h
    · simp [ha] at h
      obtain ⟨h1, _⟩ := h
      subst h1
      simpa using ha

theorem dropWhile_idem (p : Char → Bool) (l : List Char) :
    (l.dropWhile p).dropWhile p = l.dropWhile p := by
  cases h : l.dropWhile p with
  | nil => rfl
  | cons c r => rw [List.dropWhile_cons, dropWhile_head_false h]; simp

theorem dropWhile_getLast? {p : Char → Bool} {l : List Char}
    (h : l.dropWhile p ≠ []) : (l.dropWhile p).getLast? = l.getLast? := by
  induction l with
  | nil => simp at h
  | cons a t ih =>
    rw [List.dropWhile_cons]
    by_cases ha : p a
    · rw [List.dropWhile_cons, if_pos ha] at h
      have ht : t ≠ [] := by
        intro he
        subst he
        simp [List.dropWhile] at h
      rw [if_pos ha, ih h]
      cases t with
      | nil => exact absurd rfl ht
      | cons b u => simp [List.getLast?_cons]
    · simp [ha]

theorem stripChars_eq_self {l : List Char}
    (h1 : ∀ c, l.head? = some c → pyIsWs c = false)
    (h2 : ∀ c, l.getLast? = some c → pyIsWs c = false) :
    stripChars l = l := by
  unfold stripChars
  have hA : l.dropWhile pyIsWs = l := by
    cases l with
    | nil => rfl
    | cons a t => rw [List.dropWhile_cons, if_neg]; simp [h1 a rfl]
  rw [hA]
  have hB : l.reverse.dropWhile pyIsWs = l.reverse := by
    cases hr : l.reverse with
    | nil => rfl
    | cons a t =>
      have ha : l.getLast? = some a := by
        rw [← List.head?_reverse, hr]; rfl
      rw [List.dropWhile_cons, if_neg]
      simp [h2 a ha]
  rw [hB, List.reverse_reverse]

theorem stripChars_ends (l : List Char) :
    (∀ c, (stripChars l).head? = some c → pyIsWs c = false) ∧
    (∀ c, (stripChars l).getLast? = some c → pyIsWs c = false) := by
  unfold stripChars
  constructor
  · intro c hc
    rw [List.head?_reverse] at hc
    by_cases hB : List.dropWhile pyIsWs (l.dropWhile pyIsWs).reverse = []
    · rw [hB] at hc; simp at hc
    · rw [dropWhile_getLast? hB, List.getLast?_reverse] at hc
      cases hA : l.dropWhile pyIsWs with
      | nil => rw [hA] at hc; simp at hc
      | cons a t =>
        rw [hA] at hc
        simp at hc
        subst hc
        exact dropWhile_head_false hA
  · intro c hc
    rw [List.getLast?_reverse] at hc
    cases hB : List.dropWhile pyIsWs (l.dropWhile pyIsWs).reverse with
    | nil => rw [hB] at hc; simp at hc
    | cons a t =>
      rw [hB] at hc
      simp at hc
      subst hc
      exact dropWhile_head_false hB

theorem stripChars_idem (l : List Char) :
    stripChars (stripChars l) = stripChars l :=
  stripChars_eq_self (stripChars_ends l).1 (stripChars_ends l).2

theorem pyStrip_idem (s : String) : pyStrip (pyStrip s) = pyStrip s := by
  unfold pyStrip
  exact congrArg String.mk (stripChars_idem s.data)

theorem digitChar_spec (k : Nat) :
    (digitChar k).isDigit = true ∧ digVal (digitChar k) = k % 10 ∧
      pyIsWs (digitChar k) = false := by
  have h : k % 10 < 10 := Nat.mod_lt _ (by omega)
  unfold digitChar
  generalize hm : k % 10 = m at *
  interval_cases m <;> exact ⟨by decide, by decide, by decide⟩

/-- A list does not begin with a digit character. -/
def headNotDigit : List Char → Prop
  | [] => True
  | c :: _ => c.isDigit = false

theorem readNat_stop {acc n : Nat} {rest : List Char} (h : headNotDigit rest) :
    readNat acc n rest = (acc, n, rest) := by
  cases rest with
  | nil => rfl
  | cons c r =>
    unfold headNotDigit at h
    simp [readNat, h]

theorem readNat_pad2 {n : Nat} (hn : n < 100) {rest : List Char}
    (h : headNotDigit rest) : readNat 0 0 (pad2 n ++ rest) = (n, 2, rest) := by
  obtain ⟨h1, h2, -⟩ := digitChar_spec (n / 10)
  obtain ⟨h3, h4, -⟩ := digitChar_spec n
  simp only [pad2, List.cons_append, List.nil_append, readNat, h1, h3, if_pos,
    h2, h4, readNat_stop h]
  have hr : ([] : List Char).append rest = rest := rfl
  rw [hr, readNat_stop h]
  have : (0 * 10 + n / 10 % 10) * 10 + n % 10 = n := by omega
  rw [this]

theorem readNat_pad4 {n : Nat} (hn : n < 10000) {rest : List Char}
    (h : headNotDigit rest) : readNat 0 0 (pad4 n ++ rest) = (n, 4, rest) := by
  obtain ⟨h1, h2, -⟩ := digitChar_spec (n / 1000)
  obtain ⟨h3, h4, -⟩ := digitChar_spec (n / 100)
  obtain ⟨h5, h6, -⟩ := digitChar_spec (n / 10)
  obtain ⟨h7, h8, -⟩ := digitChar_spec n
  simp only [pad4, List.cons_append, List.nil_append, readNat, h1, h3, h5, h7,
    if_pos, h2, h4, h6, h8, readNat_stop h]
  have hr : ([] : List Char).append rest = rest := rfl
  rw [hr, readNat_stop h]
  have : (((0 * 10 + n / 1000 % 10) * 10 + n / 100 % 10) * 10 + n / 10 % 10) * 10
      + n % 10 = n := by omega
  rw [this]

theorem daysInMonth_le (y m : Nat) : daysInMonth y m ≤ 31 := by
  unfold daysInMonth
  split
  · split <;> omega
  · split <;> omega

theorem pd_to_datetime_fmt (d : DateTime)
    (h : validDT d.year d.month d.day d.hour d.minute d.second = true) :
    pd_to_datetime (fmtTimestamp d) = some d := by
  obtain ⟨y, mo, dd, hh, mi, se⟩ := d
  have hb := h
  simp only [validDT, Bool.and_eq_true, decide_eq_true_eq] at hb
  have hdm := daysInMonth_le y mo
  have hy : y < 10000 := by omega
  have hmo : mo < 100 := by omega
  have hdd : dd < 100 := by omega
  have hhh : hh < 100 := by omega
  have hmi : mi < 100 := by omega
  have hse : se < 100 := by omega
  have hdata : (fmtTimestamp ⟨y, mo, dd, hh, mi, se⟩).data
      = fmtChars ⟨y, mo, dd, hh, mi, se⟩ := rfl
  unfold pd_to_datetime
  rw [hdata]
  unfold fmtChars
  simp only
  rw [readNat_pad4 hy (by exact rfl : headNotDigit ('-' :: _))]
  simp only
  rw [readNat_pad2 hmo (by exact rfl : headNotDigit ('-' :: _))]
  simp only
  rw [readNat_pad2 hdd (by exact rfl : headNotDigit (' ' :: _))]
  simp only
  rw [readNat_pad2 hhh (by exact rfl : headNotDigit (':' :: _))]
  simp only
  rw [readNat_pad2 hmi (by exact rfl : headNotDigit (':' :: _))]
  simp only
  have hlast := @readNat_pad2 se hse [] trivial
  rw [List.append_nil] at hlast
  rw [hlast]
  simp [h]

theorem pd_to_datetime_valid {s : String} {dt : DateTime}
    (h : pd_to_datetime s = some dt) :
    validDT dt.year dt.month dt.day dt.hour dt.minute dt.second = true := by
  unfold pd_to_datetime at h
  simp only [] at h
  repeat' split at h
  all_goals first
    | exact Option.noConfusion h
    | (cases h; assumption)

theorem fmtChars_head (d : DateTime) :
    (fmtChars d).head? = some (digitChar (d.year / 1000)) := by
  simp [fmtChars, pad4]

theorem fmtChars_getLast (d : DateTime) :
    (fmtChars d).getLast? = some (digitChar d.second) := by
  simp only [fmtChars, pad2, pad4, List.cons_append, List.nil_append,
    List.append_assoc]
  simp [List.getLast?_cons_cons]

theorem fmtChars_ne_nil (d : DateTime) : fmtChars d ≠ [] := by
  simp [fmtChars, pad4]

theorem pyStrip_fmt (d : DateTime) :
    pyStrip (fmtTimestamp d) = fmtTimestamp d := by
  unfold pyStrip fmtTimestamp
  refine congrArg String.mk (stripChars_eq_self ?_ ?_)
  · intro c hc
    rw [fmtChars_head] at hc
    cases hc
    exact (digitChar_spec _).2.2
  · intro c hc
    rw [fmtChars_getLast] at hc
    cases hc
    exact (digitChar_spec _).2.2

theorem fmtTimestamp_ne_empty (d : DateTime) : fmtTimestamp d ≠ "" := by
  intro he
  exact fmtChars_ne_nil d (congrArg String.data he)

theorem parse_timestamp_canonical {d : DateTime}
    (h : validDT d.year d.month d.day d.hour d.minute d.second = true) :
    parse_timestamp (some (fmtTimestamp d)) = some (fmtTimestamp d) := by
  unfold parse_timestamp
  simp only [pyStr]
  rw [pyStrip_fmt, if_neg (fmtTimestamp_ne_empty d), pd_to_datetime_fmt d h]

/-- C6: timestamp coercion is idempotent.  First conjunct: every canonical
`YYYY-MM-DD HH:MM:SS` string (the `strftime` image of a valid datetime) is
returned identically by `parse_timestamp`.  Second conjunct: for every
parseable input `v` (any input on which `parse_timestamp` returns a string),
re-applying `parse_timestamp` to the result returns it unchanged, i.e.
`parse_timestamp (parse_timestamp v) = parse_timestamp v`. -/
theorem parse_timestamp_idem_c6 :
    (∀ d : DateTime, validDT d.year d.month d.day d.hour d.minute d.second = true →
      parse_timestamp (some (fmtTimestamp d)) = some (fmtTimestamp d)) ∧
    (∀ v s, parse_timestamp v = some s → parse_timestamp (some s) = some s) := by
  constructor
  · intro d h
    exact parse_timestamp_canonical h
  · intro v s h
    cases v with
    | none => simp [parse_timestamp] at h
    | some s0 =>
      unfold parse_timestamp at h
      simp only [pyStr] at h
      by_cases hb : pyStrip s0 = ""
      · rw [if_pos hb] at h
        cases h
      · rw [if_neg hb] at h
        cases hp : pd_to_datetime (pyStrip s0) with
        | some dt =>
          rw [hp] at h
          cases h
          exact parse_timestamp_canonical (pd_to_datetime_valid hp)
        | none =>
          rw [hp] at h
          cases h
          unfold parse_timestamp
          simp only [pyStr]
          rw [pyStrip_idem, if_neg hb, hp]

theorem pd_to_datetime_empty : pd_to_datetime "" = none := by decide

/-- C5 (amended): for every non-blank input, `parse_timestamp` returns the
value reformatted to canonical `YYYY-MM-DD HH:MM:SS` when reparsing
succeeds, and returns the STRIPPED original string (`str(value).strip()`,
not the verbatim original) when reparsing fails; blank or missing input
yields `None`. -/
theorem parse_timestamp_amended_c5 :
    (∀ s dt, pd_to_datetime (pyStrip s) = some dt →
      parse_timestamp (some s) = some (fmtTimestamp dt)) ∧
    (∀ s, pyStrip s ≠ "" → pd_to_datetime (pyStrip s) = none →
      parse_timestamp (some s) = some (pyStrip s)) ∧
    (∀ s, pyStrip s = "" → parse_timestamp (some s) = none) ∧
    parse_timestamp none = none := by
  refine ⟨?_, ?_, ?_, rfl⟩
  · intro s dt hp
    have hb : pyStrip s ≠ "" := by
      intro he
      rw [he, pd_to_datetime_empty] at hp
      cases hp
    unfold parse_timestamp
    simp only [pyStr]
    rw [if_neg hb, hp]
  · intro s hb hp
    unfold parse_timestamp
    simp only [pyStr]
    rw [if_neg hb, hp]
  · intro s hb
    unfold parse_timestamp
    simp only [pyStr]
    rw [if_pos hb]

/-- C5 counterexample: on unparseable input the original string is NOT
preserved verbatim: surrounding whitespace is stripped
(`return str(value).strip()` in the `except` branch). -/
theorem parse_timestamp_not_verbatim :
    parse_timestamp (some "  garbage  ") = some "garbage" ∧
    ("garbage" : String) ≠ "  garbage  " := ⟨by decide, by decide⟩

/-- Witness for C5's amended theorem at the concrete unparseable input
`"  garbage  "`: the stripped string is returned. -/
theorem parse_timestamp_amended_c5_witness :
    pyStrip "  garbage  " ≠ "" ∧
    pd_to_datetime (pyStrip "  garbage  ") = none ∧
    parse_timestamp (some "  garbage  ") = some (pyStrip "  garbage  ") :=
  ⟨by decide, by decide,
    parse_timestamp_amended_c5.2.1 "  garbage  " (by decide) (by decide)⟩

/-- Witness for C6 at the concrete canonical string `2023-01-05 10:00:00`. -/
theorem parse_timestamp_idem_c6_witness :
    validDT 2023 1 5 10 0 0 = true ∧
    parse_timestamp (some "2023-01-05 10:00:00") = some "2023-01-05 10:00:00" := by
  refine ⟨by decide, ?_⟩
  have h := parse_timestamp_idem_c6.1 ⟨2023, 1, 5, 10, 0, 0⟩ (by decide)
  have he : fmtTimestamp ⟨2023, 1, 5, 10, 0, 0⟩ = "2023-01-05 10:00:00" := by decide
  rw [he] at h
  exact h

/-- A spreadsheet row: association list from column name to cell value
(`none` = NaN/missing cell; an absent column behaves like Python
`dict.get`). -/
def Row : Type := List (String × Option String)

instance : DecidableEq Row := inferInstanceAs (DecidableEq (List (String × Option String)))

/-- Dictionary lookup of a column. -/
def rowLookup (r : Row) (col : String) : Option (Option String) :=
  (List.find? (fun p => p.1 == col) r).map (·.2)

/-- `row.get(col)` — `None` when the column is absent. -/
def rowGet (r : Row) (col : String) : Option String :=
  match rowLookup r col with
  | none => none
  | some v => v

/-- `row.get(col, "")` — the default `""` when the column is absent. -/
def rowGetD (r : Row) (col : String) : Option String :=
  match rowLookup r col with
  | none => some ""
  | some v => v

/-- A `clients` table row (schema of `db_build.init_database`). -/
structure Client where
  ID : String
  counsellor_assn : String
  age : Option Int
  gender : String
  client_type : String
  county : String
deriving DecidableEq, Repr

/-- An `epds_responses` row. -/
structure EpdsRow where
  timestamp : Option String
  client_code : String
  epds_total_score : Option Int
  severity_descriptor : String
  item_10_raw_score : Option Int
  suicidality_flag : String
  column_1 : String
deriving DecidableEq, Repr

/-- A `bdi_responses` row. -/
structure BdiRow where
  timestamp : Option String
  client_code : String
  bdi_total : Option Int
  severity_level : String
  clinical_interpretation : String
deriving DecidableEq, Repr

/-- A `bai_responses` row. -/
structure BaiRow where
  timestamp : Option String
  client_code : String
  total_score : Option Int
  severity : String
  clinical_conclusion : String
deriving DecidableEq, Repr

/-- An `aceq_responses` row. -/
structure AceqRow where
  timestamp : Option String
  client_code : String
  total_ace_score : Option Int
deriving DecidableEq, Repr

/-- A `sads_responses` row. -/
structure SadsRow where
  timestamp : Option String
  client_code : String
  social_avoidance_score : Option Int
  social_avoidance_level : String
  social_distress_score : Option Int
  social_distress_level : String
  total_sads_score : Option Int
  overall_level : String
deriving DecidableEq, Repr

/-- An `asrs_responses` row. -/
structure AsrsRow where
  timestamp : Option String
  client_code : String
  part_a_score : Option Int
  part_a_descriptor : String
  part_b_score : Option Int
  part_b_descriptor : String
  total_score : Option Int
  total_descriptor : String
  inattentive_subscale_raw : Option Int
  inattentive_subscale_percent : Option PyFloat
  hyperactivity_motor_subscale_raw : Option Int
  hyperactivity_motor_subscale_percent : Option PyFloat
  hyperactivity_verbal_subscale_raw : Option Int
  hyperactivity_verbal_subscale_percent : Option PyFloat
deriving DecidableEq, Repr

/-- A `sheet_config` row. -/
structure SheetConfigRow where
  sheet_name : String
  table_name : String
  is_excluded : Nat
deriving DecidableEq, Repr

/-- The relational store: seven data tables plus the sheet registry. -/
structure DB where
  clients : List Client
  epds_responses : List EpdsRow
  bdi_responses : List BdiRow
  bai_responses : List BaiRow
  aceq_responses : List AceqRow
  sads_responses : List SadsRow
  asrs_responses : List AsrsRow
  sheet_config : List SheetConfigRow
deriving DecidableEq, Repr

/-- A store with all tables empty. -/
def emptyDB : DB := ⟨[], [], [], [], [], [], [], []⟩

/-- `sheets_data`: mapping from tab name to its table of rows (dict keys
are unique and iterate in insertion order). -/
def Sheets : Type := List (String × List Row)

/-- `name in sheets_data` / `sheets_data[name]`. -/
def sheetLookup (sd : Sheets) (name : String) : Option (List Row) :=
  (List.find? (fun p => p.1 == name) sd).map (·.2)

def epds_sheet : String :=
  "Edinburgh Postnatal Depression Scale (EPDS) (Responses) - EPDS Scoring"
def bdi_sheet : String := "Beck's Depression Inventory (BDI) (Responses) - BDI Scoring"
def bai_sheet : String := "Beck Anxiety Inventory (BAI) (Responses) - BAI Scoring"
def aceq_sheet : String := "ACE-Q Responses - ACE-Q Scoring"
def sads_sheet : String := "SADS Responses - SADS Scoring"
def asrs_sheet : String := "ASRS Responses - ASRS Scoring"

/-- Sheet name to table name mapping. -/
def sheet_table_mapping : List (String × String) :=
  [("Clients", "clients"),
   (epds_sheet, "epds_responses"),
   (bdi_sheet, "bdi_responses"),
   (bai_sheet, "bai_responses"),
   (aceq_sheet, "aceq_responses"),
   (sads_sheet, "sads_responses"),
   (asrs_sheet, "asrs_responses")]

/-- Sheets excluded from the "available tool" listing. -/
def excluded_list : List String := ["Assessment Tools", "Generated Links", "Clients"]

/-- `REPLACE INTO sheet_config` keyed on the primary key `sheet_name`. -/
def replaceSheetConfig (tbl : List SheetConfigRow) (row : SheetConfigRow) :
    List SheetConfigRow :=
  if tbl.any (fun r => r.sheet_name == row.sheet_name) then
    tbl.map (fun r => if r.sheet_name == row.sheet_name then row else r)
  else tbl ++ [row]

/-- Rebuild of the sheet registry from the tab names. -/
def buildSheetConfig (sd : Sheets) : List SheetConfigRow :=
  sd.foldl (fun tbl p =>
    let is_excluded : Nat := if excluded_list.contains p.1 then 1 else 0
    let table_name :=
      match List.find? (fun q => q.1 == p.1) sheet_table_mapping with
      | some q => q.2
      | none => ""
    replaceSheetConfig tbl ⟨p.1, table_name, is_excluded⟩) []

/-- `REPLACE INTO clients` keyed on the primary key `ID`: an existing row
with the same identifier is replaced in place, otherwise the row is
appended. -/
def replaceClient (tbl : List Client) (c : Client) : List Client :=
  if tbl.any (fun c0 => c0.ID == c.ID) then
    tbl.map (fun c0 => if c0.ID == c.ID then c else c0)
  else tbl ++ [c]

/-- The values tuple of the clients `REPLACE` statement; `safe_int` on the
`Age` cell can raise. -/
def mkClient (r : Row) : Except PyErr Client := do
  let age ← safe_int (rowGetD r "Age")
  pure { ID := safe_str (rowGetD r "ID"),
         counsellor_assn := safe_str (rowGetD r "Counsellor Assn`"),
         age := age,
         gender := safe_str (rowGetD r "Gender"),
         client_type := safe_str (rowGetD r "Client Type"),
         county := safe_str (rowGetD r "county") }

/-- Bool form of the client-row guard
`pd.notna(row.get("ID")) and pd.notna(row.get("Counsellor Assn`"))`. -/
def clientRowOk (r : Row) : Bool :=
  notna (rowGet r "ID") && notna (rowGet r "Counsellor Assn`")

/-- The clients loop of `populate_database_with_sheets` (both variants are
identical here). -/
def buildClients (rows : List Row) : Except PyErr (List Client) :=
  rows.foldlM (fun tbl r =>
    if clientRowOk r then do
      let c ← mkClient r
      pure (replaceClient tbl c)
    else pure tbl) []

/-- `safe_str(row.get("Client Code", ""))`. -/
def rowClientCode (r : Row) : String := safe_str (rowGetD r "Client Code")

/-- Response-table loop of `db_build.populate_database_with_sheets`: insert
a row only when `SELECT 1 FROM clients WHERE ID = client_code` finds a
client. -/
def buildRespChecked {α : Type} (mk : Row → Except PyErr α)
    (clients : List Client) (rows : List Row) : Except PyErr (List α) :=
  rows.foldlM (fun tbl r =>
    if clients.any (fun c => c.ID == rowClientCode r) then do
      let x ← mk r
      pure (tbl ++ [x])
    else pure tbl) []

/-- Response-table loop of `pull_build.populate_database_with_sheets`
(SQLite variant): every row is inserted, with no client existence check. -/
def buildRespAll {α : Type} (mk : Row → Except PyErr α)
    (rows : List Row) : Except PyErr (List α) :=
  rows.foldlM (fun tbl r => do
    let x ← mk r
    pure (tbl ++ [x])) []

/-- `if name in sheets_data and not sheets_data[name].empty:` guard around
a response-table loop. -/
def tableFromSheet {α : Type} (sd : Sheets) (name : String)
    (build : List Row → Except PyErr (List α)) : Except PyErr (List α) :=
  match sheetLookup sd name with
  | some rows => if rows.isEmpty then pure [] else build rows
  | none => pure []

/-- EPDS insert tuple. -/
def mkEpdsRow (r : Row) : Except PyErr EpdsRow := do
  let ts := parse_timestamp (rowGetD r "Timestamp")
  let total ← safe_int (rowGetD r "EPDS Total Score (Max 30)")
  let item10 ← safe_int (rowGetD r "Item 10 (Harming Self) Raw Score")
  pure { timestamp := ts,
         client_code := rowClientCode r,
         epds_total_score := total,
         severity_descriptor := safe_str (rowGetD r "Severity Descriptor"),
         item_10_raw_score := item10,
         suicidality_flag := safe_str (rowGetD r "Suicidality Flag (Clinical Alert)"),
         column_1 := safe_str (rowGetD r "Column 1") }

/-- BDI insert tuple. -/
def mkBdiRow (r : Row) : Except PyErr BdiRow := do
  let ts := parse_timestamp (rowGetD r "Timestamp")
  let total ← safe_int (rowGetD r "BDI Total")
  pure { timestamp := ts,
         client_code := rowClientCode r,
         bdi_total := total,
         severity_level := safe_str (rowGetD r "Severity Level"),
         clinical_interpretation := safe_str (rowGetD r "Clinical Interpretation") }

/-- BAI insert tuple (note the trailing space in the source's
`"Clinical Conclusion "` column name). -/
def mkBaiRow (r : Row) : Except PyErr BaiRow := do
  let ts := parse_timestamp (rowGetD r "Timestamp")
  let total ← safe_int (rowGetD r "Total Score")
  pure { timestamp := ts,
         client_code := rowClientCode r,
         total_score := total,
         severity := safe_str (rowGetD r "Severity"),
         clinical_conclusion := safe_str (rowGetD r "Clinical Conclusion ") }

/-- ACE-Q insert tuple. -/
def mkAceqRow (r : Row) : Except PyErr AceqRow := do
  let ts := parse_timestamp (rowGetD r "Timestamp")
  let total ← safe_int (rowGetD r "Total ACE Score")
  pure { timestamp := ts,
         client_code := rowClientCode r,
         total_ace_score := total }

/-- SADS insert tuple. -/
def mkSadsRow (r : Row) : Except PyErr SadsRow := do
  let ts := parse_timestamp (rowGetD r "Timestamp")
  let sav ← safe_int (rowGetD r "Social Avoidance Score")
  let sdi ← safe_int (rowGetD r "Social Distress Score")
  let tot ← safe_int (rowGetD r "Total SADS Score")
  pure { timestamp := ts,
         client_code := rowClientCode r,
         social_avoidance_score := sav,
         social_avoidance_level := safe_str (rowGetD r "Social Avoidance Level"),
         social_distress_score := sdi,
         social_distress_level := safe_str (rowGetD r "Social Distress Level"),
         total_sads_score := tot,
         overall_level := safe_str (rowGetD r "Overall Level") }

/-- ASRS insert tuple (the three `(%)` columns go through
`parse_percentage`, called without a default, i.e. `row.get(col)`). -/
def mkAsrsRow (r : Row) : Except PyErr AsrsRow := do
  let ts := parse_timestamp (rowGetD r "Timestamp")
  let pa ← safe_int (rowGetD r "Part A Score")
  let pb ← safe_int (rowGetD r "Part B Score")
  let tot ← safe_int (rowGetD r "Total Score")
  let ir ← safe_int (rowGetD r "Inattentive Subscale (Raw)")
  let ip ← parse_percentage (rowGet r "Inattentive Subscale (%)")
  let hmr ← safe_int (rowGetD r "Hyperactivity-Motor Subscale (Raw)")
  let hmp ← parse_percentage (rowGet r "Hyperactivity-Motor Subscale (%)")
  let hvr ← safe_int (rowGetD r "Hyperactivity-Verbal Subscale (Raw)")
  let hvp ← parse_percentage (rowGet r "Hyperactivity-Verbal Subscale (%)")
  pure { timestamp := ts,
         client_code := rowClientCode r,
         part_a_score := pa,
         part_a_descriptor := safe_str (rowGetD r "Part A Descriptor"),
         part_b_score := pb,
         part_b_descriptor := safe_str (rowGetD r "Part B Descriptor"),
         total_score := tot,
         total_descriptor := safe_str (rowGetD r "Total Descriptor"),
         inattentive_subscale_raw := ir,
         inattentive_subscale_percent := ip,
         hyperactivity_motor_subscale_raw := hmr,
         hyperactivity_motor_subscale_percent := hmp,
         hyperactivity_verbal_subscale_raw := hvr,
         hyperactivity_verbal_subscale_percent := hvp }

/-- The clients phase: `if "Clients" in sheets_data:` (no `.empty` guard). -/
def clientsFromSheets (sd : Sheets) : Except PyErr (List Client) :=
  match sheetLookup sd "Clients" with
  | some rows => buildClients rows
  | none => pure []

/-- `db_build.populate_database_with_sheets` (MySQL variant, used by the
app): delete everything (the `db` argument's contents are discarded),
rebuild the sheet registry, load clients, then load each response table
with the client existence check. -/
def populate_database_with_sheets (db : DB) (sd : Sheets) : Except PyErr DB := do
  let _ := db
  let sheet_config := buildSheetConfig sd
  let clients ← clientsFromSheets sd
  let epds ← tableFromSheet sd epds_sheet (buildRespChecked mkEpdsRow clients)
  let bdi ← tableFromSheet sd bdi_sheet (buildRespChecked mkBdiRow clients)
  let bai ← tableFromSheet sd bai_sheet (buildRespChecked mkBaiRow clients)
  let aceq ← tableFromSheet sd aceq_sheet (buildRespChecked mkAceqRow clients)
  let sads ← tableFromSheet sd sads_sheet (buildRespChecked mkSadsRow clients)
  let asrs ← tableFromSheet sd asrs_sheet (buildRespChecked mkAsrsRow clients)
  pure { clients := clients,
         epds_responses := epds,
         bdi_responses := bdi,
         bai_responses := bai,
         aceq_responses := aceq,
         sads_responses := sads,
         asrs_responses := asrs,
         sheet_config := sheet_config }

/-- `pull_build.populate_database_with_sheets` (SQLite variant): same
phases, but response rows are inserted unconditionally, without the
client existence check. -/
def populate_database_with_sheets_pull (db : DB) (sd : Sheets) : Except PyErr DB := do
  let _ := db
  let sheet_config := buildSheetConfig sd
  let clients ← clientsFromSheets sd
  let epds ← tableFromSheet sd epds_sheet (buildRespAll mkEpdsRow)
  let bdi ← tableFromSheet sd bdi_sheet (buildRespAll mkBdiRow)
  let bai ← tableFromSheet sd bai_sheet (buildRespAll mkBaiRow)
  let aceq ← tableFromSheet sd aceq_sheet (buildRespAll mkAceqRow)
  let sads ← tableFromSheet sd sads_sheet (buildRespAll mkSadsRow)
  let asrs ← tableFromSheet sd asrs_sheet (buildRespAll mkAsrsRow)
  pure { clients := clients,
         epds_responses := epds,
         bdi_responses := bdi,
         bai_responses := bai,
         aceq_responses := aceq,
         sads_responses := sads,
         asrs_responses := asrs,
         sheet_config := sheet_config }

/-- A source mapping with a single EPDS response row whose client code has
no matching client (the Clients sheet is absent entirely). -/
def orphanSheets : Sheets := [(epds_sheet, [[("Client Code", some "X")]])]

/-- Destructuring an `Except` bind that succeeded. -/
theorem exceptBind_ok {α β : Type} {x : Except PyErr α} {f : α → Except PyErr β} {b : β}
    (h : (x >>= f) = .ok b) : ∃ a, x = .ok a ∧ f a = .ok b := by
  cases x with
  | ok a => exact ⟨a, rfl, h⟩
  | error e => simp [Bind.bind, Except.bind] at h

theorem buildRespChecked_mem {α : Type} (P : α → Prop) (mk : Row → Except PyErr α)
    (clients : List Client)
    (hP : ∀ r x, clients.any (fun c => c.ID == rowClientCode r) = true →
      mk r = .ok x → P x) :
    ∀ (rows : List Row) (acc tbl : List α),
      rows.foldlM (fun tbl r =>
        if clients.any (fun c => c.ID == rowClientCode r) then do
          let x ← mk r
          pure (tbl ++ [x])
        else pure tbl) acc = .ok tbl →
      (∀ x ∈ acc, P x) → ∀ x ∈ tbl, P x := by
  intro rows
  induction rows with
  | nil =>
    intro acc tbl h hacc
    have he : acc = tbl := Except.ok.inj h
    subst he
    exact hacc
  | cons r rs ih =>
    intro acc tbl h hacc
    rw [List.foldlM_cons] at h
    by_cases hc : clients.any (fun c => c.ID == rowClientCode r) = true
    · rw [if_pos hc] at h
      cases hm : mk r with
      | error e =>
        rw [hm] at h
        simp [Bind.bind, Except.bind] at h
      | ok x =>
        rw [hm] at h
        refine ih (acc ++ [x]) tbl h ?_
        intro y hy
        rcases List.mem_append.1 hy with hy | hy
        · exact hacc y hy
        · rcases List.mem_singleton.1 hy with rfl
          exact hP r y hc hm
    · rw [if_neg hc] at h
      exact ih acc tbl h hacc

theorem tableFromSheet_checked_mem {α : Type} (codeOf : α → String)
    (mk : Row → Except PyErr α)
    (hmk : ∀ r x, mk r = .ok x → codeOf x = rowClientCode r)
    (clients : List Client) (sd : Sheets) (name : String) (tbl : List α)
    (h : tableFromSheet sd name (buildRespChecked mk clients) = .ok tbl) :
    ∀ x ∈ tbl, ∃ c ∈ clients, c.ID = codeOf x := by
  unfold tableFromSheet at h
  split at h
  · rename_i rows hs
    split at h
    · have he : ([] : List α) = tbl := Except.ok.inj h
      subst he
      simp
    · refine buildRespChecked_mem _ mk clients ?_ rows [] tbl h (by simp)
      intro r x hc hm
      rcases List.any_eq_true.1 hc with ⟨c, hcmem, hcid⟩
      exact ⟨c, hcmem, by rw [hmk r x hm]; exact (beq_iff_eq.1 hcid)⟩
  · have he : ([] : List α) = tbl := Except.ok.inj h
    subst he
    simp

theorem mkEpdsRow_code {r : Row} {x : EpdsRow} (h : mkEpdsRow r = .ok x) :
    x.client_code = rowClientCode r := by
  unfold mkEpdsRow at h
  obtain ⟨a, ha, h⟩ := exceptBind_ok h
  obtain ⟨b, hb, h⟩ := exceptBind_ok h
  cases h
  rfl

theorem mkBdiRow_code {r : Row} {x : BdiRow} (h : mkBdiRow r = .ok x) :
    x.client_code = rowClientCode r := by
  unfold mkBdiRow at h
  obtain ⟨a, ha, h⟩ := exceptBind_ok h
  cases h
  rfl

theorem mkBaiRow_code {r : Row} {x : BaiRow} (h : mkBaiRow r = .ok x) :
    x.client_code = rowClientCode r := by
  unfold mkBaiRow at h
  obtain ⟨a, ha, h⟩ := exceptBind_ok h
  cases h
  rfl

theorem mkAceqRow_code {r : Row} {x : AceqRow} (h : mkAceqRow r = .ok x) :
    x.client_code = rowClientCode r := by
  unfold mkAceqRow at h
  obtain ⟨a, ha, h⟩ := exceptBind_ok h
  cases h
  rfl

theorem mkSadsRow_code {r : Row} {x : SadsRow} (h : mkSadsRow r = .ok x) :
    x.client_code = rowClientCode r := by
  unfold mkSadsRow at h
  obtain ⟨a, ha, h⟩ := exceptBind_ok h
  obtain ⟨b, hb, h⟩ := exceptBind_ok h
  obtain ⟨c, hc, h⟩ := exceptBind_ok h
  cases h
  rfl

theorem mkAsrsRow_code {r : Row} {x : AsrsRow} (h : mkAsrsRow r = .ok x) :
    x.client_code = rowClientCode r := by
  unfold mkAsrsRow at h
  obtain ⟨a1, h1, h⟩ := exceptBind_ok h
  obtain ⟨a2, h2, h⟩ := exceptBind_ok h
  obtain ⟨a3, h3, h⟩ := exceptBind_ok h
  obtain ⟨a4, h4, h⟩ := exceptBind_ok h
  obtain ⟨a5, h5, h⟩ := exceptBind_ok h
  obtain ⟨a6, h6, h⟩ := exceptBind_ok h
  obtain ⟨a7, h7, h⟩ := exceptBind_ok h
  obtain ⟨a8, h8, h⟩ := exceptBind_ok h
  obtain ⟨a9, h9, h⟩ := exceptBind_ok h
  cases h
  rfl

/-- C1 (amended): after the MySQL sync routine
(`db_build.populate_database_with_sheets`, the one the app runs through
`full_data_refresh`) completes on any source mapping, every row of each of
the six response tables has a client identifier present in the clients
table: orphaned response rows are dropped.  (The claim as stated is false
of the identically-named SQLite routine in `pull_build.py`, which performs
no existence check — see the counterexample.) -/
theorem populate_no_orphans_amended (db : DB) (sd : Sheets) (out : DB)
    (h : populate_database_with_sheets db sd = .ok out) :
    (∀ r ∈ out.epds_responses, ∃ c ∈ out.clients, c.ID = r.client_code) ∧
    (∀ r ∈ out.bdi_responses, ∃ c ∈ out.clients, c.ID = r.client_code) ∧
    (∀ r ∈ out.bai_responses, ∃ c ∈ out.clients, c.ID = r.client_code) ∧
    (∀ r ∈ out.aceq_responses, ∃ c ∈ out.clients, c.ID = r.client_code) ∧
    (∀ r ∈ out.sads_responses, ∃ c ∈ out.clients, c.ID = r.client_code) ∧
    (∀ r ∈ out.asrs_responses, ∃ c ∈ out.clients, c.ID = r.client_code) := by
  unfold populate_database_with_sheets at h
  obtain ⟨clients, hcl, h⟩ := exceptBind_ok h
  obtain ⟨epds, hep, h⟩ := exceptBind_ok h
  obtain ⟨bdi, hbd, h⟩ := exceptBind_ok h
  obtain ⟨bai, hba, h⟩ := exceptBind_ok h
  obtain ⟨aceq, hac, h⟩ := exceptBind_ok h
  obtain ⟨sads, hsd, h⟩ := exceptBind_ok h
  obtain ⟨asrs, has, h⟩ := exceptBind_ok h
  have hout := Except.ok.inj h
  subst hout
  exact ⟨tableFromSheet_checked_mem (fun x => x.client_code) mkEpdsRow
          (fun r x hx => mkEpdsRow_code hx) clients sd epds_sheet epds hep,
        tableFromSheet_checked_mem (fun x => x.client_code) mkBdiRow
          (fun r x hx => mkBdiRow_code hx) clients sd bdi_sheet bdi hbd,
        tableFromSheet_checked_mem (fun x => x.client_code) mkBaiRow
          (fun r x hx => mkBaiRow_code hx) clients sd bai_sheet bai hba,
        tableFromSheet_checked_mem (fun x => x.client_code) mkAceqRow
          (fun r x hx => mkAceqRow_code hx) clients sd aceq_sheet aceq hac,
        tableFromSheet_checked_mem (fun x => x.client_code) mkSadsRow
          (fun r x hx => mkSadsRow_code hx) clients sd sads_sheet sads hsd,
        tableFromSheet_checked_mem (fun x => x.client_code) mkAsrsRow
          (fun r x hx => mkAsrsRow_code hx) clients sd asrs_sheet asrs has⟩

def orphanDB : DB :=
  { clients := [],
    epds_responses := [⟨none, "X", none, "", none, "", ""⟩],
    bdi_responses := [], bai_responses := [], aceq_responses := [],
    sads_responses := [], asrs_responses := [],
    sheet_config := [⟨epds_sheet, "epds_responses", 0⟩] }

/-- C1 counterexample: `pull_build.populate_database_with_sheets` inserts
response rows unconditionally, so on a source with one orphan EPDS row the
orphan survives the sync even though no client matches it. -/
theorem populate_pull_orphan_survives :
    populate_database_with_sheets_pull emptyDB orphanSheets = .ok orphanDB ∧
    ¬ (∀ r ∈ orphanDB.epds_responses, ∃ c ∈ orphanDB.clients, c.ID = r.client_code) :=
  ⟨by decide, by decide⟩

def droppedDB : DB :=
  { clients := [],
    epds_responses := [],
    bdi_responses := [], bai_responses := [], aceq_responses := [],
    sads_responses := [], asrs_responses := [],
    sheet_config := [⟨epds_sheet, "epds_responses", 0⟩] }

/-- Witness for C1's amended theorem: on the same orphan source, the MySQL
routine drops the row, and the no-orphan property holds of its output. -/
theorem populate_no_orphans_witness :
    populate_database_with_sheets emptyDB orphanSheets = .ok droppedDB ∧
    (∀ r ∈ droppedDB.epds_responses, ∃ c ∈ droppedDB.clients, c.ID = r.client_code) :=
  ⟨by decide,
    (populate_no_orphans_amended emptyDB orphanSheets droppedDB (by decide)).1⟩

theorem mkClient_ID {r : Row} {c : Client} (h : mkClient r = .ok c) :
    c.ID = safe_str (rowGetD r "ID") := by
  unfold mkClient at h
  obtain ⟨a, ha, h⟩ := exceptBind_ok h
  cases h
  rfl

theorem replaceClient_mem {tbl : List Client} {c c' : Client}
    (h : c' ∈ replaceClient tbl c) : c' ∈ tbl ∨ c' = c := by
  unfold replaceClient at h
  by_cases ha : tbl.any (fun c0 => c0.ID == c.ID)
  · rw [if_pos ha] at h
    rcases List.mem_map.1 h with ⟨c0, hc0, hm⟩
    by_cases he : c0.ID == c.ID
    · right
      rw [if_pos he] at hm
      exact hm.symm
    · left
      rw [if_neg he] at hm
      exact hm ▸ hc0
  · rw [if_neg ha] at h
    rcases List.mem_append.1 h with h | h
    · exact Or.inl h
    · exact Or.inr (List.mem_singleton.1 h)

theorem replaceClient_ids {tbl : List Client} {c : Client} :
    (replaceClient tbl c).map (fun c0 => c0.ID) =
      if tbl.any (fun c0 => c0.ID == c.ID) then tbl.map (fun c0 => c0.ID)
      else tbl.map (fun c0 => c0.ID) ++ [c.ID] := by
  unfold replaceClient
  by_cases ha : tbl.any (fun c0 => c0.ID == c.ID)
  · rw [if_pos ha, if_pos ha, List.map_map]
    refine List.map_congr_left ?_
    intro c0 _
    by_cases he : c0.ID = c.ID
    · simp [he]
    · simp [he]
  · rw [if_neg ha, if_neg ha]
    simp

theorem replaceClient_nodup {tbl : List Client} {c : Client}
    (h : (tbl.map (fun c0 => c0.ID)).Nodup) :
    ((replaceClient tbl c).map (fun c0 => c0.ID)).Nodup := by
  rw [replaceClient_ids]
  by_cases ha : tbl.any (fun c0 => c0.ID == c.ID)
  · rw [if_pos ha]
    exact h
  · rw [if_neg ha]
    rw [List.any_eq_true] at ha
    push_neg at ha
    simp only [List.nodup_append, List.nodup_cons, List.nodup_nil]
    refine ⟨h, by simp, ?_⟩
    intro y hy hy2
    rcases List.mem_map.1 hy with ⟨c0, hc0, rfl⟩
    rcases List.mem_singleton.1 hy2 with h2
    exact absurd (by simp [h2] : (c0.ID == c.ID) = true) (by simpa using ha c0 hc0)

theorem filter_id_nil {tbl : List Client} {x : String}
    (h : ∀ c0 ∈ tbl, c0.ID ≠ x) : tbl.filter (fun c' => c'.ID == x) = [] := by
  rw [List.filter_eq_nil]
  intro c0 hc0
  simpa using h c0 hc0


theorem filter_map_replace_eq {tbl : List Client} {c : Client}
    (hnd : (tbl.map (fun c0 => c0.ID)).Nodup)
    (ha : tbl.any (fun c0 => c0.ID == c.ID) = true) :
    (tbl.map (fun c0 => if c0.ID == c.ID then c else c0)).filter
      (fun c' => c'.ID == c.ID) = [c] := by
  induction tbl with
  | nil => simp at ha
  | cons c0 rest ih =>
    simp only [List.map_cons, List.nodup_cons] at hnd
    obtain ⟨hnotin, hndr⟩ := hnd
    by_cases hc : c0.ID = c.ID
    · have hrest : (rest.map (fun c1 => if c1.ID == c.ID then c else c1)).filter
          (fun c' => c'.ID == c.ID) = [] := by
        rw [List.filter_eq_nil_iff]
        intro y hy
        rcases List.mem_map.1 hy with ⟨cr, hcr, rfl⟩
        have hne : cr.ID ≠ c.ID := by
          intro he2
          exact hnotin (by rw [hc, ← he2]; exact List.mem_map_of_mem _ hcr)
        simp [hne]
      have h1 : ((if c0.ID == c.ID then c else c0) : Client) = c := by simp [hc]
      simp only [List.map_cons, h1, List.filter_cons]
      rw [if_pos (by simp), hrest]
    · have ha' : rest.any (fun c1 => c1.ID == c.ID) = true := by
        rcases List.any_eq_true.1 ha with ⟨cz, hcz, hz⟩
        rcases List.mem_cons.1 hcz with rfl | hcz'
        · exact absurd (beq_iff_eq.1 hz) hc
        · exact List.any_eq_true.2 ⟨cz, hcz', hz⟩
      have h1 : ((if c0.ID == c.ID then c else c0) : Client) = c0 := by simp [hc]
      simp only [List.map_cons, h1, List.filter_cons]
      rw [if_neg (by simp [hc])]
      exact ih hndr ha'

theorem filter_map_replace_ne {tbl : List Client} {c : Client} {x : String}
    (hx : x ≠ c.ID) :
    (tbl.map (fun c0 => if c0.ID == c.ID then c else c0)).filter
      (fun c' => c'.ID == x) = tbl.filter (fun c' => c'.ID == x) := by
  induction tbl with
  | nil => rfl
  | cons c0 rest ih =>
    by_cases hc : c0.ID = c.ID
    · have h1 : ((if c0.ID == c.ID then c else c0) : Client) = c := by simp [hc]
      simp only [List.map_cons, h1, List.filter_cons]
      rw [if_neg (by simp; exact fun he => hx he.symm),
        if_neg (by simp [hc]; exact fun he => hx he.symm)]
      exact ih
    · have h1 : ((if c0.ID == c.ID then c else c0) : Client) = c0 := by simp [hc]
      simp only [List.map_cons, h1, List.filter_cons]
      by_cases hpx : c0.ID = x
      · rw [if_pos (by simp [hpx]), if_pos (by simp [hpx]), ih]
      · rw [if_neg (by simp [hpx]), if_neg (by simp [hpx])]
        exact ih

theorem replaceClient_filter_eq {tbl : List Client} {c : Client}
    (hnd : (tbl.map (fun c0 => c0.ID)).Nodup) :
    (replaceClient tbl c).filter (fun c' => c'.ID == c.ID) = [c] := by
  unfold replaceClient
  by_cases ha : tbl.any (fun c0 => c0.ID == c.ID)
  · rw [if_pos ha]
    exact filter_map_replace_eq hnd ha
  · rw [if_neg ha]
    rw [List.filter_append, List.filter_eq_nil_iff.2, List.nil_append]
    · simp
    · intro c0 hc0
      rw [List.any_eq_true] at ha
      push_neg at ha
      simpa using ha c0 hc0

theorem replaceClient_filter_ne {tbl : List Client} {c : Client} {x : String}
    (hx : x ≠ c.ID) :
    (replaceClient tbl c).filter (fun c' => c'.ID == x) =
      tbl.filter (fun c' => c'.ID == x) := by
  unfold replaceClient
  by_cases ha : tbl.any (fun c0 => c0.ID == c.ID)
  · rw [if_pos ha]
    exact filter_map_replace_ne hx
  · rw [if_neg ha]
    rw [List.filter_append]
    have hone : ([c] : List Client).filter (fun c' => c'.ID == x) = [] := by
      simp
      exact fun he => hx he.symm
    rw [hone, List.append_nil]

theorem buildClients_src :
    ∀ (rows : List Row) (acc tbl : List Client),
      rows.foldlM (fun tbl r =>
        if clientRowOk r then do
          let c ← mkClient r
          pure (replaceClient tbl c)
        else pure tbl) acc = .ok tbl →
      ∀ c ∈ tbl, c ∈ acc ∨ ∃ r ∈ rows, clientRowOk r = true ∧ mkClient r = .ok c := by
  intro rows
  induction rows with
  | nil =>
    intro acc tbl h c hc
    have he : acc = tbl := Except.ok.inj h
    subst he
    exact Or.inl hc
  | cons r rs ih =>
    intro acc tbl h c hc
    rw [List.foldlM_cons] at h
    by_cases hok : clientRowOk r
    · rw [if_pos hok] at h
      cases hm : mkClient r with
      | error e =>
        rw [hm] at h
        simp [Bind.bind, Except.bind] at h
      | ok c0 =>
        rw [hm] at h
        rcases ih (replaceClient acc c0) tbl h c hc with hmem | ⟨r', hr', hok', hm'⟩
        · rcases replaceClient_mem hmem with hmem | rfl
          · exact Or.inl hmem
          · exact Or.inr ⟨r, List.mem_cons_self r rs, hok, hm⟩
        · exact Or.inr ⟨r', List.mem_cons_of_mem r hr', hok', hm'⟩
    · rw [if_neg hok] at h
      rcases ih acc tbl h c hc with hmem | ⟨r', hr', hok', hm'⟩
      · exact Or.inl hmem
      · exact Or.inr ⟨r', List.mem_cons_of_mem r hr', hok', hm'⟩

theorem getLast?_eq_none_iff_nil {α : Type} {l : List α} :
    l.getLast? = none ↔ l = [] := by
  cases l with
  | nil => simp
  | cons a t =>
    simp only [reduceCtorEq, iff_false]
    intro hn
    exact Option.noConfusion ((List.getLast?_eq_getLast (a :: t) (by simp)).symm.trans hn)

/-- Predicate selecting Clients-sheet rows that pass the insert guard and
whose (stripped) identifier equals `x`. -/
def clientRowFor (x : String) (r : Row) : Bool :=
  clientRowOk r && (safe_str (rowGetD r "ID") == x)

theorem getLast?_cons_of_some {α : Type} {l : List α} {r a : α}
    (h : l.getLast? = some a) : (r :: l).getLast? = some a := by
  cases l with
  | nil => cases h
  | cons y ys => rw [List.getLast?_cons_cons]; exact h

theorem buildClients_last (x : String) :
    ∀ (rows : List Row) (acc tbl : List Client),
      rows.foldlM (fun tbl r =>
        if clientRowOk r then do
          let c ← mkClient r
          pure (replaceClient tbl c)
        else pure tbl) acc = .ok tbl →
      (acc.map (fun c0 => c0.ID)).Nodup →
      (tbl.map (fun c0 => c0.ID)).Nodup ∧
      (match (rows.filter (clientRowFor x)).getLast? with
       | none => tbl.filter (fun c => c.ID == x) = acc.filter (fun c => c.ID == x)
       | some r0 => ∃ c, mkClient r0 = .ok c ∧ tbl.filter (fun c => c.ID == x) = [c]) := by
  intro rows
  induction rows with
  | nil =>
    intro acc tbl h hnd
    have he : acc = tbl := Except.ok.inj h
    subst he
    exact ⟨hnd, rfl⟩
  | cons r rs ih =>
    intro acc tbl h hnd
    rw [List.foldlM_cons] at h
    by_cases hok : clientRowOk r
    · rw [if_pos hok] at h
      cases hm : mkClient r with
      | error e =>
        rw [hm] at h
        simp [Bind.bind, Except.bind] at h
      | ok c0 =>
        rw [hm] at h
        have hnd' := replaceClient_nodup (c := c0) hnd
        obtain ⟨hndT, hmatch⟩ := ih (replaceClient acc c0) tbl h hnd'
        refine ⟨hndT, ?_⟩
        by_cases hxr : (safe_str (rowGetD r "ID") == x) = true
        · -- this row targets identifier x
          have hq : clientRowFor x r = true := by
            unfold clientRowFor
            rw [hok, hxr]
            rfl
          rw [List.filter_cons, if_pos hq]
          have hidc : c0.ID = x := by
            rw [mkClient_ID hm]
            exact beq_iff_eq.1 hxr
          cases hrs : (rs.filter (clientRowFor x)).getLast? with
          | some r1 =>
            rw [hrs] at hmatch
            rw [getLast?_cons_of_some hrs]
            exact hmatch
          | none =>
            rw [hrs] at hmatch
            rw [getLast?_eq_none_iff_nil.1 hrs]
            simp only [List.getLast?_singleton]
            refine ⟨c0, hm, ?_⟩
            rw [hmatch]
            have := replaceClient_filter_eq (c := c0) hnd
            rw [hidc] at this
            exact this
        · -- this row targets a different identifier
          have hq : clientRowFor x r = false := by
            unfold clientRowFor
            rw [Bool.and_eq_false_iff]
            right
            exact Bool.not_eq_true _ ▸ hxr
          rw [List.filter_cons, if_neg (by rw [hq]; exact Bool.false_ne_true)]
          have hxne : x ≠ c0.ID := by
            intro he
            refine hxr ?_
            rw [← mkClient_ID hm, beq_iff_eq]
            exact he.symm
          cases hrs : (rs.filter (clientRowFor x)).getLast? with
          | some r1 =>
            rw [hrs] at hmatch
            exact hmatch
          | none =>
            rw [hrs] at hmatch
            rw [hmatch]
            exact replaceClient_filter_ne hxne
    · rw [if_neg hok] at h
      obtain ⟨hndT, hmatch⟩ := ih acc tbl h hnd
      refine ⟨hndT, ?_⟩
      have hq : clientRowFor x r = false := by
        unfold clientRowFor
        rw [Bool.and_eq_false_iff]
        left
        exact Bool.not_eq_true _ ▸ hok
      rw [List.filter_cons, if_neg (by rw [hq]; exact Bool.false_ne_true)]
      exact hmatch

/-- C9: during a sync, a Clients-sheet row leads to a clients-table entry
if and only if both its `"ID"` and its `` "Counsellor Assn`" `` cells are
non-missing: every row passing the guard has its (stripped) identifier
present in the final table, and every final table entry is the insert
tuple of some row that passed the guard (rows missing either field are
skipped). -/
theorem clients_insert_iff_c9 (db : DB) (sd : Sheets) (out : DB) (rows : List Row)
    (h : populate_database_with_sheets db sd = .ok out)
    (hs : sheetLookup sd "Clients" = some rows) :
    (∀ r ∈ rows, clientRowOk r = true →
      ∃ c ∈ out.clients, c.ID = safe_str (rowGetD r "ID")) ∧
    (∀ c ∈ out.clients, ∃ r ∈ rows, clientRowOk r = true ∧ mkClient r = .ok c) := by
  unfold populate_database_with_sheets at h
  obtain ⟨clients, hcl, h⟩ := exceptBind_ok h
  obtain ⟨epds, hep, h⟩ := exceptBind_ok h
  obtain ⟨bdi, hbd, h⟩ := exceptBind_ok h
  obtain ⟨bai, hba, h⟩ := exceptBind_ok h
  obtain ⟨aceq, hac, h⟩ := exceptBind_ok h
  obtain ⟨sads, hsd2, h⟩ := exceptBind_ok h
  obtain ⟨asrs, has, h⟩ := exceptBind_ok h
  have hout := Except.ok.inj h
  subst hout
  unfold clientsFromSheets at hcl
  rw [hs] at hcl
  constructor
  · intro r hr hok
    have hq : clientRowFor (safe_str (rowGetD r "ID")) r = true := by
      unfold clientRowFor
      rw [hok]
      simp
    have hmemf : r ∈ rows.filter (clientRowFor (safe_str (rowGetD r "ID"))) :=
      List.mem_filter.2 ⟨hr, hq⟩
    have hne : rows.filter (clientRowFor (safe_str (rowGetD r "ID"))) ≠ [] :=
      List.ne_nil_of_mem hmemf
    obtain ⟨r0, hr0⟩ : ∃ r0,
        (rows.filter (clientRowFor (safe_str (rowGetD r "ID")))).getLast? = some r0 :=
      ⟨_, List.getLast?_eq_getLast _ hne⟩
    have hl := buildClients_last (safe_str (rowGetD r "ID")) rows [] clients hcl (by simp)
    rw [hr0] at hl
    obtain ⟨-, c, hmc, hfc⟩ := hl
    refine ⟨c, ?_, ?_⟩
    · have : c ∈ clients.filter (fun c1 => c1.ID == safe_str (rowGetD r "ID")) := by
        rw [hfc]
        simp
      exact List.mem_of_mem_filter this
    · have : c ∈ clients.filter (fun c1 => c1.ID == safe_str (rowGetD r "ID")) := by
        rw [hfc]
        simp
      exact beq_iff_eq.1 (List.mem_filter.1 this).2
  · intro c hc
    rcases buildClients_src rows [] clients hcl c hc with hmem | hsrc
    · cases hmem
    · exact hsrc

/-- C10: duplicate client identifiers do not fail the sync (`REPLACE INTO`
semantics); after the sync the clients table holds exactly one row for the
identifier, and it carries the insert tuple of the last qualifying sheet
row with that identifier. -/
theorem clients_duplicate_last_wins_c10 (db : DB) (sd : Sheets) (out : DB)
    (rows : List Row) (x : String) (r0 : Row)
    (h : populate_database_with_sheets db sd = .ok out)
    (hs : sheetLookup sd "Clients" = some rows)
    (hlast : (rows.filter (clientRowFor x)).getLast? = some r0) :
    ∃ c, mkClient r0 = .ok c ∧
      out.clients.filter (fun c1 => c1.ID == x) = [c] := by
  unfold populate_database_with_sheets at h
  obtain ⟨clients, hcl, h⟩ := exceptBind_ok h
  obtain ⟨epds, hep, h⟩ := exceptBind_ok h
  obtain ⟨bdi, hbd, h⟩ := exceptBind_ok h
  obtain ⟨bai, hba, h⟩ := exceptBind_ok h
  obtain ⟨aceq, hac, h⟩ := exceptBind_ok h
  obtain ⟨sads, hsd2, h⟩ := exceptBind_ok h
  obtain ⟨asrs, has, h⟩ := exceptBind_ok h
  have hout := Except.ok.inj h
  subst hout
  unfold clientsFromSheets at hcl
  rw [hs] at hcl
  have hl := buildClients_last x rows [] clients hcl (by simp)
  rw [hlast] at hl
  exact hl.2

def dupRow1 : Row :=
  [("ID", some "C1"), ("Counsellor Assn`", some "T1"), ("Age", some "30")]
def dupRow2 : Row := [("ID", some "C1"), ("Counsellor Assn`", some "T2")]
def dupRows : List Row := [dupRow1, dupRow2]
def dupSheets : Sheets := [("Clients", dupRows)]

def dupDB : DB :=
  { clients := [⟨"C1", "T2", none, "", "", ""⟩],
    epds_responses := [], bdi_responses := [], bai_responses := [],
    aceq_responses := [], sads_responses := [], asrs_responses := [],
    sheet_config := [⟨"Clients", "clients", 1⟩] }

/-- Witness for C10 at a concrete two-row duplicate source: the surviving
row carries the second (last) row's values. -/
theorem clients_duplicate_last_wins_c10_witness :
    ∃ c, mkClient dupRow2 = .ok c ∧
      dupDB.clients.filter (fun c1 => c1.ID == "C1") = [c] :=
  clients_duplicate_last_wins_c10 emptyDB dupSheets dupDB dupRows "C1" dupRow2
    (by decide) (by decide) (by decide)

/-- Witness for C9 at the same concrete source. -/
theorem clients_insert_iff_c9_witness :
    (∀ r ∈ dupRows, clientRowOk r = true →
      ∃ c ∈ dupDB.clients, c.ID = safe_str (rowGetD r "ID")) ∧
    (∀ c ∈ dupDB.clients, ∃ r ∈ dupRows, clientRowOk r = true ∧ mkClient r = .ok c) :=
  clients_insert_iff_c9 emptyDB dupSheets dupDB dupRows (by decide) (by decide)

/-- Lexicographic comparison of character lists (the collation under which
canonical `YYYY-MM-DD HH:MM:SS` strings order chronologically, matching
the `ORDER BY timestamp` on the stored column). -/
def lexLe : List Char → List Char → Bool
  | [], _ => true
  | _ :: _, [] => false
  | a :: as, b :: bs => if a = b then lexLe as bs else decide (a < b)

/-- String comparison used by `ORDER BY`. -/
def strLe (s t : String) : Bool := lexLe s.data t.data

/-- `ORDER BY timestamp` comparison with SQL `NULL`s first. -/
def tsLe : Option String → Option String → Bool
  | none, _ => true
  | some _, none => false
  | some a, some b => strLe a b

theorem lexLe_total (a b : List Char) : lexLe a b = true ∨ lexLe b a = true := by
  induction a generalizing b with
  | nil => exact Or.inl rfl
  | cons x xs ih =>
    cases b with
    | nil => exact Or.inr rfl
    | cons y ys =>
      by_cases he : x = y
      · subst he
        simp only [lexLe, if_pos rfl]
        exact ih ys
      · rcases lt_trichotomy x y with hlt | heq | hgt
        · left
          simp only [lexLe, if_neg he]
          exact decide_eq_true hlt
        · exact absurd heq he
        · right
          have hne : ¬(y = x) := fun h2 => he h2.symm
          simp only [lexLe, if_neg hne]
          exact decide_eq_true hgt

theorem tsLe_total (a b : Option String) : tsLe a b = true ∨ tsLe b a = true := by
  cases a with
  | none => exact Or.inl rfl
  | some s =>
    cases b with
    | none => exact Or.inr rfl
    | some t => exact lexLe_total s.data t.data

/-- Insertion into a list ordered by `le`, placing the new element after
existing equal keys (a stable insertion). -/
def insertLe {α : Type} (le : α → α → Bool) (x : α) : List α → List α
  | [] => [x]
  | y :: ys => if le y x then y :: insertLe le x ys else x :: y :: ys

/-- Stable insertion sort by `le`. -/
def sortLe {α : Type} (le : α → α → Bool) (l : List α) : List α :=
  l.foldl (fun acc x => insertLe le x acc) []

theorem perm_insertLe {α : Type} (le : α → α → Bool) (x : α) (l : List α) :
    (insertLe le x l).Perm (x :: l) := by
  induction l with
  | nil => exact List.Perm.refl _
  | cons y ys ih =>
    unfold insertLe
    by_cases h : le y x
    · rw [if_pos h]
      exact (ih.cons y).trans (List.Perm.swap x y ys)
    · rw [if_neg h]

theorem perm_sortLe {α : Type} (le : α → α → Bool) (l : List α) :
    (sortLe le l).Perm l := by
  suffices h : ∀ (l acc : List α),
      (l.foldl (fun acc x => insertLe le x acc) acc).Perm (acc ++ l) by
    simpa using h l []
  intro l
  induction l with
  | nil => intro acc; simp
  | cons a as ih =>
    intro acc
    rw [List.foldl_cons]
    refine (ih (insertLe le a acc)).trans ?_
    refine (List.Perm.append_right as (perm_insertLe le a acc)).trans ?_
    exact List.perm_middle.symm

theorem mem_sortLe {α : Type} (le : α → α → Bool) (x : α) (l : List α) :
    x ∈ sortLe le l ↔ x ∈ l :=
  (perm_sortLe le l).mem_iff

theorem length_sortLe {α : Type} (le : α → α → Bool) (l : List α) :
    (sortLe le l).length = l.length :=
  (perm_sortLe le l).length_eq

theorem chain'_insertLe {α : Type} (le : α → α → Bool)
    (htot : ∀ a b, le a b = true ∨ le b a = true) (x : α) {l : List α}
    (h : l.Chain' (fun a b => le a b = true)) :
    (insertLe le x l).Chain' (fun a b => le a b = true) := by
  induction l with
  | nil => simp [insertLe]
  | cons y ys ih =>
    unfold insertLe
    by_cases hle : le y x
    · rw [if_pos hle]
      rw [List.chain'_cons'] at h ⊢
      obtain ⟨hhd, htl⟩ := h
      refine ⟨?_, ih htl⟩
      intro z hz
      cases ys with
      | nil =>
        simp only [insertLe, List.head?_cons, Option.mem_def, Option.some.injEq] at hz
        subst hz
        exact hle
      | cons w ws =>
        unfold insertLe at hz
        by_cases hlw : le w x
        · rw [if_pos hlw] at hz
          simp only [List.head?_cons, Option.mem_def, Option.some.injEq] at hz
          subst hz
          exact hhd w rfl
        · rw [if_neg hlw] at hz
          simp only [List.head?_cons, Option.mem_def, Option.some.injEq] at hz
          subst hz
          exact hle
    · rw [if_neg hle]
      rw [List.chain'_cons]
      refine ⟨?_, h⟩
      rcases htot x y with h1 | h1
      · exact h1
      · exact absurd h1 hle

theorem chain'_sortLe {α : Type} (le : α → α → Bool)
    (htot : ∀ a b, le a b = true ∨ le b a = true) (l : List α) :
    (sortLe le l).Chain' (fun a b => le a b = true) := by
  suffices h : ∀ (l acc : List α), acc.Chain' (fun a b => le a b = true) →
      (l.foldl (fun acc x => insertLe le x acc) acc).Chain'
        (fun a b => le a b = true) by
    exact h l [] (by simp)
  intro l
  induction l with
  | nil => intro acc hacc; simpa using hacc
  | cons a as ih =>
    intro acc hacc
    rw [List.foldl_cons]
    exact ih _ (chain'_insertLe le htot a hacc)

/-- One partition of `ROW_NUMBER() OVER (PARTITION BY client_code ORDER BY
timestamp)`: the rows of one client code, sorted by timestamp, numbered
from 1 in that order. -/
def rankBlock {α : Type} (code : α → String) (ts : α → Option String)
    (rows : List α) (c : String) : List (α × Nat) :=
  ((sortLe (fun a b => tsLe (ts a) (ts b))
      (rows.filter (fun r => code r == c))).enum).map (fun p => (p.2, p.1 + 1))

/-- The full windowed query: one block per distinct client code, blocks
arranged by client code (`ORDER BY client_code, timestamp`). -/
def rowNumberPartition {α : Type} (code : α → String) (ts : α → Option String)
    (rows : List α) : List (α × Nat) :=
  ((sortLe strLe (rows.map code).dedup).map (rankBlock code ts rows)).flatten

/-- `app.get_tool_data` restricted to one tool's response table: the table
rows each paired with the computed `Session Number`. -/
def get_tool_data_epds (db : DB) : List (EpdsRow × Nat) :=
  rowNumberPartition (fun r => r.client_code) (fun r => r.timestamp) db.epds_responses

def get_tool_data_bdi (db : DB) : List (BdiRow × Nat) :=
  rowNumberPartition (fun r => r.client_code) (fun r => r.timestamp) db.bdi_responses

def get_tool_data_bai (db : DB) : List (BaiRow × Nat) :=
  rowNumberPartition (fun r => r.client_code) (fun r => r.timestamp) db.bai_responses

def get_tool_data_aceq (db : DB) : List (AceqRow × Nat) :=
  rowNumberPartition (fun r => r.client_code) (fun r => r.timestamp) db.aceq_responses

def get_tool_data_sads (db : DB) : List (SadsRow × Nat) :=
  rowNumberPartition (fun r => r.client_code) (fun r => r.timestamp) db.sads_responses

def get_tool_data_asrs (db : DB) : List (AsrsRow × Nat) :=
  rowNumberPartition (fun r => r.client_code) (fun r => r.timestamp) db.asrs_responses

theorem filter_flatten {α : Type} (p : α → Bool) (L : List (List α)) :
    (L.flatten.filter p) = (L.map (List.filter p)).flatten := by
  induction L with
  | nil => rfl
  | cons l ls ih => simp [List.filter_append, ih]

theorem flatten_single {β : Type} {codes : List String} {c : String}
    (hnd : codes.Nodup) (hc : c ∈ codes) (f : String → List β)
    (hf : ∀ c' ∈ codes, c' ≠ c → f c' = []) :
    (codes.map f).flatten = f c := by
  induction codes with
  | nil => cases hc
  | cons c0 cs ih =>
    simp only [List.nodup_cons] at hnd
    obtain ⟨hnotin, hnds⟩ := hnd
    rcases List.mem_cons.1 hc with rfl | hc'
    · have hrest : (cs.map f).flatten = [] := by
        rw [List.flatten_eq_nil_iff]
        intro l hl
        rcases List.mem_map.1 hl with ⟨c', hc', rfl⟩
        exact hf c' (List.mem_cons_of_mem _ hc') (fun he => hnotin (he ▸ hc'))
      simp [hrest]
    · have h0 : f c0 = [] :=
        hf c0 (List.mem_cons_self _ _) (fun he => hnotin (he ▸ hc'))
      simp only [List.map_cons, List.flatten_cons, h0, List.nil_append]
      exact ih hnds hc' (fun c' hm hne => hf c' (List.mem_cons_of_mem _ hm) hne)

theorem rankBlock_snd {α : Type} (code : α → String) (ts : α → Option String)
    (rows : List α) (c : String) :
    (rankBlock code ts rows c).map (fun p => p.2) =
      List.range' 1 (rows.filter (fun r => code r == c)).length := by
  unfold rankBlock
  rw [List.map_map]
  have h1 : ((fun p : α × Nat => p.2) ∘ fun p : Nat × α => (p.2, p.1 + 1)) =
      (fun p : Nat × α => p.1 + 1) := rfl
  rw [h1]
  have h2 : (fun p : Nat × α => p.1 + 1) =
      ((fun n : Nat => n + 1) ∘ Prod.fst) := rfl
  rw [h2, ← List.map_map, List.enum_map_fst, length_sortLe,
    List.range'_eq_map_range]
  exact List.map_congr_left (fun x _ => Nat.add_comm x 1)

theorem rankBlock_chain {α : Type} (code : α → String) (ts : α → Option String)
    (rows : List α) (c : String) :
    List.Chain' (fun p q => tsLe (ts p.1) (ts q.1) = true)
      (rankBlock code ts rows c) := by
  unfold rankBlock
  rw [List.chain'_map]
  refine (@List.chain'_map α (Nat × α)
    (fun x y => tsLe (ts x) (ts y) = true) Prod.snd _).1 ?_
  rw [List.enum_map_snd]
  exact chain'_sortLe _ (fun a b => tsLe_total (ts a) (ts b)) _

theorem rankBlock_mem_code {α : Type} (code : α → String) (ts : α → Option String)
    (rows : List α) (c : String) {p : α × Nat}
    (hp : p ∈ rankBlock code ts rows c) : code p.1 = c := by
  unfold rankBlock at hp
  rcases List.mem_map.1 hp with ⟨q, hq, rfl⟩
  have hq2 : q.2 ∈ (sortLe (fun a b => tsLe (ts a) (ts b))
      (rows.filter (fun r => code r == c))) := by
    have := List.enum_map_snd (sortLe (fun a b => tsLe (ts a) (ts b))
      (rows.filter (fun r => code r == c)))
    rw [← this]
    exact List.mem_map_of_mem _ hq
  rw [mem_sortLe] at hq2
  exact beq_iff_eq.1 (List.mem_filter.1 hq2).2

theorem rowNumberPartition_filter {α : Type} (code : α → String)
    (ts : α → Option String) (rows : List α) (c : String) :
    (rowNumberPartition code ts rows).filter (fun p => code p.1 == c) =
      rankBlock code ts rows c := by
  unfold rowNumberPartition
  rw [filter_flatten, List.map_map]
  have hnd : (sortLe strLe (rows.map code).dedup).Nodup :=
    ((perm_sortLe strLe _).nodup_iff).2 (List.nodup_dedup _)
  by_cases hc : c ∈ sortLe strLe (rows.map code).dedup
  · rw [flatten_single hnd hc]
    · show (rankBlock code ts rows c).filter (fun p => code p.1 == c) = _
      rw [List.filter_eq_self]
      intro p hp
      simp [rankBlock_mem_code code ts rows c hp]
    · intro c' hc' hne
      show (rankBlock code ts rows c').filter (fun p => code p.1 == c) = []
      rw [List.filter_eq_nil_iff]
      intro p hp
      rw [rankBlock_mem_code code ts rows c' hp]
      simp [hne]
  · have hempty : rows.filter (fun r => code r == c) = [] := by
      rw [List.filter_eq_nil_iff]
      intro r hr hcr
      refine hc ?_
      rw [mem_sortLe, List.mem_dedup]
      exact (beq_iff_eq.1 hcr) ▸ List.mem_map_of_mem code hr
    have hblockc : rankBlock code ts rows c = [] := by
      unfold rankBlock
      rw [hempty]
      rfl
    rw [hblockc]
    rw [List.flatten_eq_nil_iff]
    intro l hl
    rcases List.mem_map.1 hl with ⟨c', hc', rfl⟩
    show (rankBlock code ts rows c').filter (fun p => code p.1 == c) = []
    rw [List.filter_eq_nil_iff]
    intro p hp
    rw [rankBlock_mem_code code ts rows c' hp]
    intro hb
    exact hc ((beq_iff_eq.1 hb) ▸ hc')

theorem rowNumberPartition_spec {α : Type} (code : α → String)
    (ts : α → Option String) (rows : List α) (c : String) :
    ((rowNumberPartition code ts rows).filter (fun p => code p.1 == c)).map
        (fun p => p.2) =
      List.range' 1 (rows.filter (fun r => code r == c)).length ∧
    List.Chain' (fun p q => tsLe (ts p.1) (ts q.1) = true)
      ((rowNumberPartition code ts rows).filter (fun p => code p.1 == c)) := by
  rw [rowNumberPartition_filter]
  exact ⟨rankBlock_snd code ts rows c, rankBlock_chain code ts rows c⟩

/-- C2: for every store state and every client, the session numbers of
`get_tool_data` (`ROW_NUMBER() OVER (PARTITION BY client_code ORDER BY
timestamp)`) over that client's rows are exactly the dense sequence
`1..N` (`N` = the client's row count), assigned in ascending timestamp
order (adjacent ranked rows have non-decreasing timestamps, SQL `NULL`s
first); and the sync is a function of the source data alone (the prior
store contents are deleted first), so re-running it on identical source
data reproduces the same store and hence the same rank assignment. -/
theorem session_ranks_c2 :
    (∀ (db : DB) (c : String),
      ((get_tool_data_epds db).filter (fun p => p.1.client_code == c)).map (fun p => p.2) =
          List.range' 1 (db.epds_responses.filter (fun r => r.client_code == c)).length ∧
        List.Chain' (fun p q => tsLe p.1.timestamp q.1.timestamp = true)
          ((get_tool_data_epds db).filter (fun p => p.1.client_code == c))) ∧
    (∀ (db : DB) (c : String),
      ((get_tool_data_bdi db).filter (fun p => p.1.client_code == c)).map (fun p => p.2) =
          List.range' 1 (db.bdi_responses.filter (fun r => r.client_code == c)).length ∧
        List.Chain' (fun p q => tsLe p.1.timestamp q.1.timestamp = true)
          ((get_tool_data_bdi db).filter (fun p => p.1.client_code == c))) ∧
    (∀ (db : DB) (c : String),
      ((get_tool_data_bai db).filter (fun p => p.1.client_code == c)).map (fun p => p.2) =
          List.range' 1 (db.bai_responses.filter (fun r => r.client_code == c)).length ∧
        List.Chain' (fun p q => tsLe p.1.timestamp q.1.timestamp = true)
          ((get_tool_data_bai db).filter (fun p => p.1.client_code == c))) ∧
    (∀ (db : DB) (c : String),
      ((get_tool_data_aceq db).filter (fun p => p.1.client_code == c)).map (fun p => p.2) =
          List.range' 1 (db.aceq_responses.filter (fun r => r.client_code == c)).length ∧
        List.Chain' (fun p q => tsLe p.1.timestamp q.1.timestamp = true)
          ((get_tool_data_aceq db).filter (fun p => p.1.client_code == c))) ∧
    (∀ (db : DB) (c : String),
      ((get_tool_data_sads db).filter (fun p => p.1.client_code == c)).map (fun p => p.2) =
          List.range' 1 (db.sads_responses.filter (fun r => r.client_code == c)).length ∧
        List.Chain' (fun p q => tsLe p.1.timestamp q.1.timestamp = true)
          ((get_tool_data_sads db).filter (fun p => p.1.client_code == c))) ∧
    (∀ (db : DB) (c : String),
      ((get_tool_data_asrs db).filter (fun p => p.1.client_code == c)).map (fun p => p.2) =
          List.range' 1 (db.asrs_responses.filter (fun r => r.client_code == c)).length ∧
        List.Chain' (fun p q => tsLe p.1.timestamp q.1.timestamp = true)
          ((get_tool_data_asrs db).filter (fun p => p.1.client_code == c))) ∧
    (∀ (db1 db2 : DB) (sd : Sheets),
      populate_database_with_sheets db1 sd = populate_database_with_sheets db2 sd) :=
  ⟨fun db c => rowNumberPartition_spec _ _ _ c,
   fun db c => rowNumberPartition_spec _ _ _ c,
   fun db c => rowNumberPartition_spec _ _ _ c,
   fun db c => rowNumberPartition_spec _ _ _ c,
   fun db c => rowNumberPartition_spec _ _ _ c,
   fun db c => rowNumberPartition_spec _ _ _ c,
   fun db1 db2 sd => rfl⟩

/-- One row of `get_therapist_comprehensive_counts`. -/
structure TherapistCounts where
  therapist_name : String
  total_clients : Nat
  epds_clients : Nat
  bdi_clients : Nat
  bai_clients : Nat
  aceq_clients : Nat
  sads_clients : Nat
  asrs_clients : Nat
deriving DecidableEq, Repr

/-- The distinct therapist names, as produced by
`GROUP BY c.counsellor_assn ORDER BY c.counsellor_assn`.  The
`WHERE c.counsellor_assn IS NOT NULL` clause is vacuous in this model:
the sync always stores a string (possibly empty), never SQL `NULL`. -/
def therapists (db : DB) : List String :=
  sortLe strLe (db.clients.map (fun c => c.counsellor_assn)).dedup

/-- `COUNT(DISTINCT r.client_code)` over the rows of a response table
joined to a given set of clients on `r.client_code = c.ID`. -/
def toolClientCount (codes : List String) (cls : List Client) : Nat :=
  ((codes.filter (fun k => cls.any (fun c => c.ID == k))).dedup).length

/-- `app.get_therapist_comprehensive_counts`: per therapist, the distinct
client count and the six per-tool distinct client counts (the LEFT JOINs
multiply rows but `COUNT(DISTINCT …)` collapses them, and `NULL` codes
from unmatched joins are not counted). -/
def get_therapist_comprehensive_counts (db : DB) : List TherapistCounts :=
  (therapists db).map (fun t =>
    let tclients := db.clients.filter (fun c => c.counsellor_assn == t)
    { therapist_name := t,
      total_clients := ((tclients.map (fun c => c.ID)).dedup).length,
      epds_clients := toolClientCount (db.epds_responses.map (fun r => r.client_code)) tclients,
      bdi_clients := toolClientCount (db.bdi_responses.map (fun r => r.client_code)) tclients,
      bai_clients := toolClientCount (db.bai_responses.map (fun r => r.client_code)) tclients,
      aceq_clients := toolClientCount (db.aceq_responses.map (fun r => r.client_code)) tclients,
      sads_clients := toolClientCount (db.sads_responses.map (fun r => r.client_code)) tclients,
      asrs_clients := toolClientCount (db.asrs_responses.map (fun r => r.client_code)) tclients })

/-- `pat in s` on Python strings. -/
def containsAux (pat : List Char) : List Char → Bool
  | [] => decide (pat = [])
  | c :: t => pat.isPrefixOf (c :: t) || containsAux pat t

/-- `pat in s`. -/
def strContains (s pat : String) : Bool := containsAux pat.data s.data

/-- The seven destination tables a tool name can resolve to. -/
inductive ToolTable where
  | clients | epds | bdi | bai | aceq | sads | asrs
deriving DecidableEq, Repr

/-- The tool-name resolution of `get_therapist_clients_for_tool`.  The
source loops over the sheet mapping but breaks on the first iteration
whenever any keyword matches; since every mapped sheet name contains its
own keyword, the loop is equivalent to: if the name contains a keyword
(or contains "Clients"), resolve through the `elif` chain, else leave the
table unresolved. -/
def resolveToolTable (tool_name : String) : Option ToolTable :=
  if strContains tool_name "Clients" || strContains tool_name "EPDS" ||
      strContains tool_name "BDI" || strContains tool_name "BAI" ||
      strContains tool_name "ACE-Q" || strContains tool_name "SADS" ||
      strContains tool_name "ASRS" then
    if strContains tool_name "EPDS" then some .epds
    else if strContains tool_name "BDI" then some .bdi
    else if strContains tool_name "BAI" then some .bai
    else if strContains tool_name "ACE-Q" then some .aceq
    else if strContains tool_name "SADS" then some .sads
    else if strContains tool_name "ASRS" then some .asrs
    else if tool_name == "Clients" then some .clients
    else none
  else none

/-- The `client_code` column of a response table. -/
def tableCodes (db : DB) : ToolTable → List String
  | .clients => db.clients.map (fun c => c.ID)
  | .epds => db.epds_responses.map (fun r => r.client_code)
  | .bdi => db.bdi_responses.map (fun r => r.client_code)
  | .bai => db.bai_responses.map (fun r => r.client_code)
  | .aceq => db.aceq_responses.map (fun r => r.client_code)
  | .sads => db.sads_responses.map (fun r => r.client_code)
  | .asrs => db.asrs_responses.map (fun r => r.client_code)

/-- `app.get_therapist_clients_for_tool`: resolve the tool name; an
unresolved name counts 0; the clients table counts distinct IDs filtered
by therapist; a response table counts distinct client codes of rows
joined to a matching client, filtered by therapist ("All" = no filter). -/
def get_therapist_clients_for_tool (db : DB) (therapist_name tool_name : String) :
    Nat :=
  match resolveToolTable tool_name with
  | none => 0
  | some .clients =>
    if therapist_name == "All" then
      ((db.clients.map (fun c => c.ID)).dedup).length
    else
      (((db.clients.filter (fun c => c.counsellor_assn == therapist_name)).map
        (fun c => c.ID)).dedup).length
  | some t =>
    let codes := tableCodes db t
    if therapist_name == "All" then
      ((codes.filter (fun k => db.clients.any (fun c => c.ID == k))).dedup).length
    else
      ((codes.filter (fun k => db.clients.any
        (fun c => c.ID == k && c.counsellor_assn == therapist_name))).dedup).length

theorem sum_map_indicator {α : Type} (p : α → Bool) (l : List α) :
    (l.map (fun x => if p x then 1 else 0)).sum = (l.filter p).length := by
  induction l with
  | nil => rfl
  | cons a t ih =>
    by_cases h : p a <;> simp [List.filter_cons, h, ih] <;> omega

theorem sum_map_add_pointwise {α : Type} (f g : α → Nat) (l : List α) :
    (l.map (fun x => f x + g x)).sum = (l.map f).sum + (l.map g).sum := by
  induction l with
  | nil => rfl
  | cons a t ih => simp [ih]; omega

theorem sum_filter_swap (q : String → String → Bool) :
    ∀ (D T : List String),
      (T.map (fun t => (D.filter (fun k => q k t)).length)).sum =
        (D.map (fun k => (T.filter (fun t => q k t)).length)).sum := by
  intro D
  induction D with
  | nil => intro T; simp
  | cons k D' ih =>
    intro T
    have hsplit : ∀ t, ((k :: D').filter (fun k' => q k' t)).length =
        (if q k t then 1 else 0) + (D'.filter (fun k' => q k' t)).length := by
      intro t
      rw [List.filter_cons]
      by_cases h : q k t <;> simp [h] <;> omega
    calc (T.map (fun t => ((k :: D').filter (fun k' => q k' t)).length)).sum
        = (T.map (fun t => (if q k t then 1 else 0) +
            (D'.filter (fun k' => q k' t)).length)).sum := by
          rw [List.map_congr_left (fun t _ => hsplit t)]
      _ = (T.map (fun t => if q k t then 1 else 0)).sum +
            (T.map (fun t => (D'.filter (fun k' => q k' t)).length)).sum :=
          sum_map_add_pointwise _ _ T
      _ = (T.filter (fun t => q k t)).length +
            (D'.map (fun k' => (T.filter (fun t => q k' t)).length)).sum := by
          rw [sum_map_indicator, ih T]
      _ = ((k :: D').map (fun k' => (T.filter (fun t => q k' t)).length)).sum := by
          simp

theorem dedup_filter {α : Type} [DecidableEq α] (p : α → Bool) (l : List α) :
    (l.filter p).dedup = l.dedup.filter p := by
  induction l with
  | nil => rfl
  | cons a t ih =>
    by_cases hp : p a
    · rw [List.filter_cons_of_pos hp]
      by_cases hm : a ∈ t
      · rw [List.dedup_cons_of_mem (List.mem_filter.2 ⟨hm, hp⟩),
          List.dedup_cons_of_mem hm, ih]
      · rw [List.dedup_cons_of_not_mem (fun hc => hm (List.mem_of_mem_filter hc)),
          List.dedup_cons_of_not_mem hm, List.filter_cons_of_pos hp, ih]
    · rw [List.filter_cons_of_neg hp]
      by_cases hm : a ∈ t
      · rw [List.dedup_cons_of_mem hm, ih]
      · rw [List.dedup_cons_of_not_mem hm, List.filter_cons_of_neg hp, ih]


theorem therapist_singleton {cls : List Client}
    (hnd : (cls.map (fun c => c.ID)).Nodup)
    {T : List String} (hT : T.Nodup) (hcov : ∀ c ∈ cls, c.counsellor_assn ∈ T)
    (k : String) :
    (T.filter (fun t => cls.any
      (fun c => c.ID == k && c.counsellor_assn == t))).length =
      if cls.any (fun c => c.ID == k) then 1 else 0 := by
  by_cases hp : cls.any (fun c => c.ID == k)
  · rw [if_pos hp]
    rcases List.any_eq_true.1 hp with ⟨c0, hc0, hk⟩
    have hkey : ∀ t, (cls.any (fun c => c.ID == k && c.counsellor_assn == t)) =
        (t == c0.counsellor_assn) := by
      intro t
      by_cases he : c0.counsellor_assn = t
      · rw [List.any_eq_true.2 ⟨c0, hc0, by rw [hk, he]; simp⟩]
        simp [he]
      · have hfls : (cls.any fun c => c.ID == k && c.counsellor_assn == t) = false := by
          rw [Bool.eq_false_iff]
          intro hany
          rcases List.any_eq_true.1 hany with ⟨c1, hc1, hb⟩
          rw [Bool.and_eq_true] at hb
          have hceq : c1 = c0 :=
            List.inj_on_of_nodup_map hnd hc1 hc0
              (by rw [beq_iff_eq.1 hb.1, beq_iff_eq.1 hk])
          exact he (hceq ▸ beq_iff_eq.1 hb.2)
        rw [hfls]
        exact (beq_eq_false_iff_ne.2 (fun h2 => he h2.symm)).symm
    rw [List.filter_congr (fun t _ => hkey t)]
    have hcnt := List.count_eq_one_of_mem hT (hcov c0 hc0)
    rw [List.count, List.countP_eq_length_filter] at hcnt
    exact hcnt
  · rw [if_neg hp]
    rw [List.filter_eq_nil_iff.2, List.length_nil]
    intro t ht hany
    rcases List.any_eq_true.1 hany with ⟨c1, hc1, hb⟩
    rw [Bool.and_eq_true] at hb
    exact hp (List.any_eq_true.2 ⟨c1, hc1, hb.1⟩)

theorem sum_partition_count (codes : List String) (cls : List Client)
    (hnd : (cls.map (fun c => c.ID)).Nodup)
    {T : List String} (hT : T.Nodup) (hcov : ∀ c ∈ cls, c.counsellor_assn ∈ T) :
    (T.map (fun t => ((codes.filter (fun k => cls.any
        (fun c => c.ID == k && c.counsellor_assn == t))).dedup).length)).sum =
      ((codes.filter (fun k => cls.any (fun c => c.ID == k))).dedup).length := by
  have h1 : ∀ t : String, ((codes.filter (fun k => cls.any
      (fun c => c.ID == k && c.counsellor_assn == t))).dedup) =
      codes.dedup.filter (fun k => cls.any
        (fun c => c.ID == k && c.counsellor_assn == t)) :=
    fun t => dedup_filter _ codes
  rw [List.map_congr_left (fun t _ => congrArg List.length (h1 t))]
  rw [sum_filter_swap (fun k t => cls.any
    (fun c => c.ID == k && c.counsellor_assn == t)) codes.dedup T]
  rw [List.map_congr_left (fun k _ => therapist_singleton hnd hT hcov k)]
  rw [sum_map_indicator, dedup_filter]

theorem any_filter_comm (cls : List Client) (t k : String) :
    (cls.filter (fun c => c.counsellor_assn == t)).any (fun c => c.ID == k) =
      cls.any (fun c => c.ID == k && c.counsellor_assn == t) := by
  rw [List.any_filter]
  induction cls with
  | nil => rfl
  | cons c cs ih => simp only [List.any_cons, ih, Bool.and_comm]

theorem therapists_nodup (db : DB) : (therapists db).Nodup :=
  ((perm_sortLe strLe _).nodup_iff).2 (List.nodup_dedup _)

theorem therapists_cover (db : DB) :
    ∀ c ∈ db.clients, c.counsellor_assn ∈ therapists db := by
  intro c hc
  rw [therapists, mem_sortLe, List.mem_dedup]
  exact List.mem_map_of_mem _ hc

theorem tool_all_and_sum (db : DB)
    (hnd : (db.clients.map (fun c => c.ID)).Nodup)
    (codes : List String) (name : String) (tt : ToolTable)
    (hres : resolveToolTable name = some tt) (htt : tt ≠ .clients)
    (hcodes : tableCodes db tt = codes) :
    ((therapists db).map (fun t => toolClientCount codes
        (db.clients.filter (fun c => c.counsellor_assn == t)))).sum =
      get_therapist_clients_for_tool db "All" name ∧
    ("All" ∉ therapists db →
      ((therapists db).map (fun t =>
        get_therapist_clients_for_tool db t name)).sum =
      get_therapist_clients_for_tool db "All" name) := by
  have hT := therapists_nodup db
  have hcov := therapists_cover db
  have hsum := sum_partition_count codes db.clients hnd hT hcov
  have hcomp : ((therapists db).map (fun t => toolClientCount codes
      (db.clients.filter (fun c => c.counsellor_assn == t)))).sum =
      ((therapists db).map (fun t => ((codes.filter (fun k => db.clients.any
        (fun c => c.ID == k && c.counsellor_assn == t))).dedup).length)).sum := by
    refine congrArg List.sum (List.map_congr_left ?_)
    intro t _
    unfold toolClientCount
    refine congrArg List.length (congrArg List.dedup (List.filter_congr ?_))
    intro k _
    exact any_filter_comm db.clients t k
  have hall : get_therapist_clients_for_tool db "All" name =
      ((codes.filter (fun k => db.clients.any (fun c => c.ID == k))).dedup).length := by
    cases tt with
    | clients => exact absurd rfl htt
    | epds =>
      rw [← hcodes]
      simp [get_therapist_clients_for_tool, hres, tableCodes]
    | bdi =>
      rw [← hcodes]
      simp [get_therapist_clients_for_tool, hres, tableCodes]
    | bai =>
      rw [← hcodes]
      simp [get_therapist_clients_for_tool, hres, tableCodes]
    | aceq =>
      rw [← hcodes]
      simp [get_therapist_clients_for_tool, hres, tableCodes]
    | sads =>
      rw [← hcodes]
      simp [get_therapist_clients_for_tool, hres, tableCodes]
    | asrs =>
      rw [← hcodes]
      simp [get_therapist_clients_for_tool, hres, tableCodes]
  constructor
  · rw [hcomp, hsum, hall]
  · intro hnall
    have hsel : ∀ t ∈ therapists db, get_therapist_clients_for_tool db t name =
        ((codes.filter (fun k => db.clients.any
          (fun c => c.ID == k && c.counsellor_assn == t))).dedup).length := by
      intro t ht
      have htne : (t == "All") = false :=
        beq_eq_false_iff_ne.2 (fun he => hnall (he ▸ ht))
      cases tt with
      | clients => exact absurd rfl htt
      | epds =>
        rw [← hcodes]
        simp [get_therapist_clients_for_tool, hres, tableCodes, htne]
      | bdi =>
        rw [← hcodes]
        simp [get_therapist_clients_for_tool, hres, tableCodes, htne]
      | bai =>
        rw [← hcodes]
        simp [get_therapist_clients_for_tool, hres, tableCodes, htne]
      | aceq =>
        rw [← hcodes]
        simp [get_therapist_clients_for_tool, hres, tableCodes, htne]
      | sads =>
        rw [← hcodes]
        simp [get_therapist_clients_for_tool, hres, tableCodes, htne]
      | asrs =>
        rw [← hcodes]
        simp [get_therapist_clients_for_tool, hres, tableCodes, htne]
    rw [List.map_congr_left hsel, hsum, hall]

/-- C8: for every store state with unique client identifiers (the `ID`
primary key) and each of the six tools: the sum over all therapists of
that tool's per-therapist distinct-client counts from
`get_therapist_comprehensive_counts` equals the store-wide distinct count
`get_therapist_clients_for_tool db "All" <tool sheet name>`; and, as long
as no therapist is literally named "All" (which would shadow the special
selection), the "All" count also equals the sum over all therapists of the
per-therapist `get_therapist_clients_for_tool` counts. -/
theorem therapist_counts_c8 (db : DB)
    (hnd : (db.clients.map (fun c => c.ID)).Nodup) :
    (((get_therapist_comprehensive_counts db).map (fun r => r.epds_clients)).sum =
        get_therapist_clients_for_tool db "All" epds_sheet ∧
      ("All" ∉ therapists db →
        ((therapists db).map (fun t =>
          get_therapist_clients_for_tool db t epds_sheet)).sum =
        get_therapist_clients_for_tool db "All" epds_sheet)) ∧
    (((get_therapist_comprehensive_counts db).map (fun r => r.bdi_clients)).sum =
        get_therapist_clients_for_tool db "All" bdi_sheet ∧
      ("All" ∉ therapists db →
        ((therapists db).map (fun t =>
          get_therapist_clients_for_tool db t bdi_sheet)).sum =
        get_therapist_clients_for_tool db "All" bdi_sheet)) ∧
    (((get_therapist_comprehensive_counts db).map (fun r => r.bai_clients)).sum =
        get_therapist_clients_for_tool db "All" bai_sheet ∧
      ("All" ∉ therapists db →
        ((therapists db).map (fun t =>
          get_therapist_clients_for_tool db t bai_sheet)).sum =
        get_therapist_clients_for_tool db "All" bai_sheet)) ∧
    (((get_therapist_comprehensive_counts db).map (fun r => r.aceq_clients)).sum =
        get_therapist_clients_for_tool db "All" aceq_sheet ∧
      ("All" ∉ therapists db →
        ((therapists db).map (fun t =>
          get_therapist_clients_for_tool db t aceq_sheet)).sum =
        get_therapist_clients_for_tool db "All" aceq_sheet)) ∧
    (((get_therapist_comprehensive_counts db).map (fun r => r.sads_clients)).sum =
        get_therapist_clients_for_tool db "All" sads_sheet ∧
      ("All" ∉ therapists db →
        ((therapists db).map (fun t =>
          get_therapist_clients_for_tool db t sads_sheet)).sum =
        get_therapist_clients_for_tool db "All" sads_sheet)) ∧
    (((get_therapist_comprehensive_counts db).map (fun r => r.asrs_clients)).sum =
        get_therapist_clients_for_tool db "All" asrs_sheet ∧
      ("All" ∉ therapists db →
        ((therapists db).map (fun t =>
          get_therapist_clients_for_tool db t asrs_sheet)).sum =
        get_therapist_clients_for_tool db "All" asrs_sheet)) := by
  have hepds := tool_all_and_sum db hnd
    (db.epds_responses.map (fun r => r.client_code)) epds_sheet .epds
    (by decide) (by simp) (by rfl)
  have hbdi := tool_all_and_sum db hnd
    (db.bdi_responses.map (fun r => r.client_code)) bdi_sheet .bdi
    (by decide) (by simp) (by rfl)
  have hbai := tool_all_and_sum db hnd
    (db.bai_responses.map (fun r => r.client_code)) bai_sheet .bai
    (by decide) (by simp) (by rfl)
  have haceq := tool_all_and_sum db hnd
    (db.aceq_responses.map (fun r => r.client_code)) aceq_sheet .aceq
    (by decide) (by simp) (by rfl)
  have hsads := tool_all_and_sum db hnd
    (db.sads_responses.map (fun r => r.client_code)) sads_sheet .sads
    (by decide) (by simp) (by rfl)
  have hasrs := tool_all_and_sum db hnd
    (db.asrs_responses.map (fun r => r.client_code)) asrs_sheet .asrs
    (by decide) (by simp) (by rfl)
  have hm1 : (get_therapist_comprehensive_counts db).map (fun r => r.epds_clients) =
      (therapists db).map (fun t => toolClientCount
        (db.epds_responses.map (fun r => r.client_code))
        (db.clients.filter (fun c => c.counsellor_assn == t))) := by
    unfold get_therapist_comprehensive_counts
    rw [List.map_map]
    rfl
  have hm2 : (get_therapist_comprehensive_counts db).map (fun r => r.bdi_clients) =
      (therapists db).map (fun t => toolClientCount
        (db.bdi_responses.map (fun r => r.client_code))
        (db.clients.filter (fun c => c.counsellor_assn == t))) := by
    unfold get_therapist_comprehensive_counts
    rw [List.map_map]
    rfl
  have hm3 : (get_therapist_comprehensive_counts db).map (fun r => r.bai_clients) =
      (therapists db).map (fun t => toolClientCount
        (db.bai_responses.map (fun r => r.client_code))
        (db.clients.filter (fun c => c.counsellor_assn == t))) := by
    unfold get_therapist_comprehensive_counts
    rw [List.map_map]
    rfl
  have hm4 : (get_therapist_comprehensive_counts db).map (fun r => r.aceq_clients) =
      (therapists db).map (fun t => toolClientCount
        (db.aceq_responses.map (fun r => r.client_code))
        (db.clients.filter (fun c => c.counsellor_assn == t))) := by
    unfold get_therapist_comprehensive_counts
    rw [List.map_map]
    rfl
  have hm5 : (get_therapist_comprehensive_counts db).map (fun r => r.sads_clients) =
      (therapists db).map (fun t => toolClientCount
        (db.sads_responses.map (fun r => r.client_code))
        (db.clients.filter (fun c => c.counsellor_assn == t))) := by
    unfold get_therapist_comprehensive_counts
    rw [List.map_map]
    rfl
  have hm6 : (get_therapist_comprehensive_counts db).map (fun r => r.asrs_clients) =
      (therapists db).map (fun t => toolClientCount
        (db.asrs_responses.map (fun r => r.client_code))
        (db.clients.filter (fun c => c.counsellor_assn == t))) := by
    unfold get_therapist_comprehensive_counts
    rw [List.map_map]
    rfl
  exact ⟨⟨by rw [hm1]; exact hepds.1, hepds.2⟩,
         ⟨by rw [hm2]; exact hbdi.1, hbdi.2⟩,
         ⟨by rw [hm3]; exact hbai.1, hbai.2⟩,
         ⟨by rw [hm4]; exact haceq.1, haceq.2⟩,
         ⟨by rw [hm5]; exact hsads.1, hsads.2⟩,
         ⟨by rw [hm6]; exact hasrs.1, hasrs.2⟩⟩

def countsDB : DB :=
  { clients := [⟨"C1", "T1", none, "", "", ""⟩, ⟨"C2", "T2", none, "", "", ""⟩,
                ⟨"C3", "T1", none, "", "", ""⟩],
    epds_responses :=
      [⟨some "2023-01-05 10:00:00", "C1", some 20, "", none, "", ""⟩,
       ⟨some "2023-02-05 10:00:00", "C1", some 10, "", none, "", ""⟩,
       ⟨some "2023-01-06 10:00:00", "C2", some 7, "", none, "", ""⟩,
       ⟨some "2023-01-07 10:00:00", "ZZ", some 7, "", none, "", ""⟩],
    bdi_responses := [], bai_responses := [], aceq_responses := [],
    sads_responses := [], asrs_responses := [], sheet_config := [] }

/-- Witness for C8 at a concrete populated store (three clients over two
therapists, four EPDS rows, one of them orphaned). -/
theorem therapist_counts_c8_witness :
    ((get_therapist_comprehensive_counts countsDB).map
        (fun r => r.epds_clients)).sum =
      get_therapist_clients_for_tool countsDB "All" epds_sheet :=
  (therapist_counts_c8 countsDB (by decide)).1.1
